import Mathlib

/-!
Shallow embedding of `src/orderbook.rs` (struct `OrderBookImpl`): a two-sided
limit order book backed by a direct-mapped price table of `CAP = 65536` slots
per side and a three-tier occupancy bitmap (L1 words over slots, L2 words over
L1 words, one root word over L2 words).

Machine integers are embedded as `Nat` / `Int`:
`u64` bitmap words are `Nat` kept below `2 ^ 64` (an invariant we prove),
`Price = i64` is `Int` (the sentinels `i64::MIN` / `i64::MAX` are explicit
constants), and `Quantity = u64` is `Nat`.  The cast-and-mask
`(price as usize) & MASK` is the mathematical residue `price % 65536`
(two's-complement truncation followed by masking keeps exactly the low
16 bits).  `u64` complement `!x` is `x ^^^ (2 ^ 64 - 1)`.
-/

namespace OrderBookTd

/-- CAP from `orderbook.rs`: number of slots per side. -/
def CAP : Nat := 65536

/-- MASK from `orderbook.rs`: `CAP - 1`. -/
def MASK : Nat := CAP - 1

/-- L1_SIZE from `orderbook.rs`: `CAP / 64`. -/
def L1_SIZE : Nat := CAP / 64

/-- L2_SIZE from `orderbook.rs`: `L1_SIZE / 64`. -/
def L2_SIZE : Nat := L1_SIZE / 64

/-- Embedding of `i64::MIN`, the empty-bid sentinel. -/
def i64min : Int := -(2 ^ 63)

/-- Embedding of `i64::MAX`, the empty-ask sentinel. -/
def i64max : Int := 2 ^ 63 - 1

/-- Embedding of `(price as usize) & MASK` for an `i64` price: the low 16 bits
of the two's-complement representation, i.e. the residue mod `CAP`. -/
def maskIdx (price : Int) : Nat := (price % (CAP : Int)).toNat

/-- Embedding of `u64` bitwise complement `!x` (for `x < 2 ^ 64`). -/
def u64not (x : Nat) : Nat := x ^^^ (2 ^ 64 - 1)

/-- Fuel-driven count of trailing zero bits; with fuel 64 this matches
`u64::trailing_zeros` (in particular it returns 64 on input 0). -/
def ctzGo : Nat → Nat → Nat
  | 0, _ => 0
  | fuel + 1, n => if n % 2 = 1 then 0 else ctzGo fuel (n / 2) + 1

/-- Embedding of `u64::trailing_zeros`. -/
def ctz64 (n : Nat) : Nat := ctzGo 64 n

/-- Fuel-driven binary logarithm; with fuel 64 this matches
`63 - n.leading_zeros()` on a non-zero `u64` (and `Nat.log2 n` for
`n < 2 ^ 64`, proved below). -/
def log2Go : Nat → Nat → Nat
  | 0, _ => 0
  | fuel + 1, n => if n < 2 then 0 else log2Go fuel (n / 2) + 1

/-- Embedding of `63 - word.leading_zeros()` for a `u64` word; every use in
the source is guarded by the word being non-zero. -/
def msb64 (n : Nat) : Nat := log2Go 64 n

/-- Modelled from the spec: `Side` (§6) is a two-valued tag, declared in the
repository's `interfaces.rs` which is not under `src/`. -/
inductive Side where
  | Bid : Side
  | Ask : Side
deriving DecidableEq, Repr

/-- Modelled from the spec: `Update` (§6) is the tagged variant
`Set{price, quantity, side} | Remove{price, side}`, declared in the
repository's `interfaces.rs` which is not under `src/`.  `Price` is the
signed 64-bit integer type (embedded as `Int`) and `Quantity` the unsigned
64-bit integer type (embedded as `Nat`). -/
inductive Update where
  | Set : Int → Nat → Side → Update
  | Remove : Int → Side → Update
deriving DecidableEq, Repr

/-- Side of an update. -/
def Update.side : Update → Side
  | .Set _ _ s => s
  | .Remove _ s => s

/-- Price of an update. -/
def Update.price : Update → Int
  | .Set p _ _ => p
  | .Remove p _ => p

/-- Embedding of `struct OrderBookImpl`.  The fixed-size arrays
(`[u64; L1_SIZE]`, `[Quantity; CAP]`, ...) are embedded as functions from
`Nat`; every access in the source is through an index already reduced below
the array length, so out-of-range values are never consulted. -/
structure OrderBookImpl where
  best_bid : Int
  best_ask : Int
  total_bid_qty : Nat
  total_ask_qty : Nat
  root_bid : Nat
  root_ask : Nat
  bid_l2 : Nat → Nat
  ask_l2 : Nat → Nat
  bid_l1 : Nat → Nat
  ask_l1 : Nat → Nat
  bid_quantities : Nat → Nat
  ask_quantities : Nat → Nat
  bid_prices : Nat → Int
  ask_prices : Nat → Int

namespace OrderBookImpl

/-- Embedding of `Default::default()` / `OrderBook::new()`: both bests at
their sentinels, all counters and bitmap tiers zero, all tables zeroed. -/
def new : OrderBookImpl where
  best_bid := i64min
  best_ask := i64max
  total_bid_qty := 0
  total_ask_qty := 0
  root_bid := 0
  root_ask := 0
  bid_l2 := fun _ => 0
  ask_l2 := fun _ => 0
  bid_l1 := fun _ => 0
  ask_l1 := fun _ => 0
  bid_quantities := fun _ => 0
  ask_quantities := fun _ => 0
  bid_prices := fun _ => 0
  ask_prices := fun _ => 0

/-- Embedding of `find_new_best_bid`: three most-significant-bit scans
down the bitmap tiers.  `63 - word.leading_zeros()` on a non-zero `u64`
is `Nat.log2`; every call site guards the scanned words non-zero via the
bitmap-consistency invariant. -/
def find_new_best_bid (b : OrderBookImpl) : OrderBookImpl :=
  if b.root_bid = 0 then { b with best_bid := i64min }
  else
    let l2_idx := msb64 b.root_bid
    let l2_word := b.bid_l2 l2_idx
    let l1_offset := msb64 l2_word
    let l1_idx := l2_idx * 64 + l1_offset
    let l1_word := b.bid_l1 l1_idx
    let bit_offset := msb64 l1_word
    let final_idx := l1_idx * 64 + bit_offset
    { b with best_bid := b.bid_prices final_idx }

/-- Embedding of `find_new_best_ask`: three least-significant-bit scans
(`u64::trailing_zeros`) down the bitmap tiers. -/
def find_new_best_ask (b : OrderBookImpl) : OrderBookImpl :=
  if b.root_ask = 0 then { b with best_ask := i64max }
  else
    let l2_idx := ctz64 b.root_ask
    let l2_word := b.ask_l2 l2_idx
    let l1_offset := ctz64 l2_word
    let l1_idx := l2_idx * 64 + l1_offset
    let l1_word := b.ask_l1 l1_idx
    let bit_offset := ctz64 l1_word
    let final_idx := l1_idx * 64 + bit_offset
    { b with best_ask := b.ask_prices final_idx }

/-- Embedding of `update_bid`: overwrite the slot, maintain the total, the
three bitmap tiers and the cached best, mirroring the source's branch
structure (`quantity == 0` removal path with cascading clears and a
best-price recompute when the removed price was the cached best; insert path
with cascading sets and an opportunistic best-price bump). -/
def update_bid (b : OrderBookImpl) (idx : Nat) (price : Int) (quantity : Nat) :
    OrderBookImpl :=
  let old_qty := b.bid_quantities idx
  let bq := fun j => if j = idx then quantity else b.bid_quantities j
  let bp := fun j => if j = idx then price else b.bid_prices j
  let l1_idx := idx / 64
  let l1_bit := 2 ^ (idx % 64)
  if quantity = 0 then
    if 0 < old_qty then
      let total := b.total_bid_qty - old_qty
      let l1_val := b.bid_l1 l1_idx &&& u64not l1_bit
      let bl1 := fun j => if j = l1_idx then l1_val else b.bid_l1 j
      let l2_idx := l1_idx / 64
      let l2_bit := 2 ^ (l1_idx % 64)
      let l2_val := b.bid_l2 l2_idx &&& u64not l2_bit
      let bl2 := fun j => if j = l2_idx then l2_val else b.bid_l2 j
      let b' :=
        if l1_val = 0 then
          { b with bid_quantities := bq, bid_prices := bp,
                   total_bid_qty := total, bid_l1 := bl1, bid_l2 := bl2,
                   root_bid := if l2_val = 0 then
                       b.root_bid &&& u64not (2 ^ l2_idx)
                     else b.root_bid }
        else
          { b with bid_quantities := bq, bid_prices := bp,
                   total_bid_qty := total, bid_l1 := bl1 }
      if price = b.best_bid then b'.find_new_best_bid else b'
    else
      { b with bid_quantities := bq, bid_prices := bp }
  else
    let total := b.total_bid_qty + quantity - old_qty
    let b1 :=
      if old_qty = 0 then
        let bl1 := fun j => if j = l1_idx then b.bid_l1 l1_idx ||| l1_bit
                            else b.bid_l1 j
        let l2_idx := l1_idx / 64
        let l2_bit := 2 ^ (l1_idx % 64)
        let l2_val := b.bid_l2 l2_idx
        if l2_val &&& l2_bit = 0 then
          { b with bid_quantities := bq, bid_prices := bp,
                   total_bid_qty := total, bid_l1 := bl1,
                   bid_l2 := fun j => if j = l2_idx then l2_val ||| l2_bit
                                      else b.bid_l2 j,
                   root_bid := b.root_bid ||| 2 ^ l2_idx }
        else
          { b with bid_quantities := bq, bid_prices := bp,
                   total_bid_qty := total, bid_l1 := bl1 }
      else
        { b with bid_quantities := bq, bid_prices := bp,
                 total_bid_qty := total }
    if b.best_bid < price then { b1 with best_bid := price } else b1

/-- Embedding of `update_ask`: mirror image of `update_bid` on the ask-side
fields, with the opportunistic best comparison reversed. -/
def update_ask (b : OrderBookImpl) (idx : Nat) (price : Int) (quantity : Nat) :
    OrderBookImpl :=
  let old_qty := b.ask_quantities idx
  let aq := fun j => if j = idx then quantity else b.ask_quantities j
  let ap := fun j => if j = idx then price else b.ask_prices j
  let l1_idx := idx / 64
  let l1_bit := 2 ^ (idx % 64)
  if quantity = 0 then
    if 0 < old_qty then
      let total := b.total_ask_qty - old_qty
      let l1_val := b.ask_l1 l1_idx &&& u64not l1_bit
      let al1 := fun j => if j = l1_idx then l1_val else b.ask_l1 j
      let l2_idx := l1_idx / 64
      let l2_bit := 2 ^ (l1_idx % 64)
      let l2_val := b.ask_l2 l2_idx &&& u64not l2_bit
      let al2 := fun j => if j = l2_idx then l2_val else b.ask_l2 j
      let b' :=
        if l1_val = 0 then
          { b with ask_quantities := aq, ask_prices := ap,
                   total_ask_qty := total, ask_l1 := al1, ask_l2 := al2,
                   root_ask := if l2_val = 0 then
                       b.root_ask &&& u64not (2 ^ l2_idx)
                     else b.root_ask }
        else
          { b with ask_quantities := aq, ask_prices := ap,
                   total_ask_qty := total, ask_l1 := al1 }
      if price = b.best_ask then b'.find_new_best_ask else b'
    else
      { b with ask_quantities := aq, ask_prices := ap }
  else
    let total := b.total_ask_qty + quantity - old_qty
    let b1 :=
      if old_qty = 0 then
        let al1 := fun j => if j = l1_idx then b.ask_l1 l1_idx ||| l1_bit
                            else b.ask_l1 j
        let l2_idx := l1_idx / 64
        let l2_bit := 2 ^ (l1_idx % 64)
        let l2_val := b.ask_l2 l2_idx
        if l2_val &&& l2_bit = 0 then
          { b with ask_quantities := aq, ask_prices := ap,
                   total_ask_qty := total, ask_l1 := al1,
                   ask_l2 := fun j => if j = l2_idx then l2_val ||| l2_bit
                                      else b.ask_l2 j,
                   root_ask := b.root_ask ||| 2 ^ l2_idx }
        else
          { b with ask_quantities := aq, ask_prices := ap,
                   total_ask_qty := total, ask_l1 := al1 }
      else
        { b with ask_quantities := aq, ask_prices := ap,
                 total_ask_qty := total }
    if price < b.best_ask then { b1 with best_ask := price } else b1

/-- Embedding of `apply_update`: resolve the slot index by masking and
dispatch per side; `Remove` is `Set` with quantity 0. -/
def apply_update (b : OrderBookImpl) (u : Update) : OrderBookImpl :=
  match u with
  | .Set price quantity side =>
    let idx := maskIdx price
    match side with
    | .Bid => b.update_bid idx price quantity
    | .Ask => b.update_ask idx price quantity
  | .Remove price side =>
    let idx := maskIdx price
    match side with
    | .Bid => b.update_bid idx price 0
    | .Ask => b.update_ask idx price 0

/-- Embedding of `get_spread`. -/
def get_spread (b : OrderBookImpl) : Option Int :=
  if b.best_bid = i64min ∨ b.best_ask = i64max then none
  else some (b.best_ask - b.best_bid)

/-- Embedding of `get_best_bid`: sentinel maps to `none`. -/
def get_best_bid (b : OrderBookImpl) : Option Int :=
  if b.best_bid = i64min then none else some b.best_bid

/-- Embedding of `get_best_ask`: sentinel maps to `none`. -/
def get_best_ask (b : OrderBookImpl) : Option Int :=
  if b.best_ask = i64max then none else some b.best_ask

/-- Embedding of `get_quantity_at`: direct slot lookup, zero reported as
`none`. -/
def get_quantity_at (b : OrderBookImpl) (price : Int) (side : Side) :
    Option Nat :=
  let idx := maskIdx price
  match side with
  | .Bid => let q := b.bid_quantities idx; if 0 < q then some q else none
  | .Ask => let q := b.ask_quantities idx; if 0 < q then some q else none

/-- Embedding of the bid-side `loop` body of `get_top_levels`: examine the
slot, push if occupied (stopping once `n` pairs are collected), step to the
next index downward with wraparound, and stop on return to the start.  The
fuel argument is `CAP` at the top-level call, enough for the full cycle. -/
def top_walk_bid (b : OrderBookImpl) (n start : Nat) :
    Nat → Nat → List (Int × Nat) → List (Int × Nat)
  | 0, _, out => out
  | fuel + 1, idx, out =>
    let q := b.bid_quantities idx
    if 0 < q then
      let out2 := out ++ [(b.bid_prices idx, q)]
      if n ≤ out2.length then out2
      else
        let idx2 := if idx = 0 then CAP - 1 else idx - 1
        if idx2 = start then out2 else top_walk_bid b n start fuel idx2 out2
    else
      let idx2 := if idx = 0 then CAP - 1 else idx - 1
      if idx2 = start then out else top_walk_bid b n start fuel idx2 out

/-- Embedding of the ask-side `loop` body of `get_top_levels`: as the bid
walk but stepping upward with wraparound. -/
def top_walk_ask (b : OrderBookImpl) (n start : Nat) :
    Nat → Nat → List (Int × Nat) → List (Int × Nat)
  | 0, _, out => out
  | fuel + 1, idx, out =>
    let q := b.ask_quantities idx
    if 0 < q then
      let out2 := out ++ [(b.ask_prices idx, q)]
      if n ≤ out2.length then out2
      else
        let idx2 := if idx = CAP - 1 then 0 else idx + 1
        if idx2 = start then out2 else top_walk_ask b n start fuel idx2 out2
    else
      let idx2 := if idx = CAP - 1 then 0 else idx + 1
      if idx2 = start then out else top_walk_ask b n start fuel idx2 out

/-- Embedding of `get_top_levels`: empty side short-circuits on the sentinel,
otherwise walk from the best price's slot. -/
def get_top_levels (b : OrderBookImpl) (side : Side) (n : Nat) :
    List (Int × Nat) :=
  match side with
  | .Bid =>
    if b.best_bid = i64min then []
    else
      let start_idx := maskIdx b.best_bid
      top_walk_bid b n start_idx CAP start_idx []
  | .Ask =>
    if b.best_ask = i64max then []
    else
      let start_idx := maskIdx b.best_ask
      top_walk_ask b n start_idx CAP start_idx []

/-- Embedding of `get_total_quantity`. -/
def get_total_quantity (b : OrderBookImpl) (side : Side) : Nat :=
  match side with
  | .Bid => b.total_bid_qty
  | .Ask => b.total_ask_qty

/-- Embedding of the scan over lower L1 words in
`find_next_highest_active_idx`: `for i in (0..start_l1_idx).rev()`. -/
def scan_down_bid (b : OrderBookImpl) : Nat → Option Nat
  | 0 => none
  | i + 1 =>
    let l1_word := b.bid_l1 i
    if l1_word ≠ 0 then some (i * 64 + msb64 l1_word)
    else scan_down_bid b i

/-- Embedding of `find_next_highest_active_idx`: mask off the bits at or
above the start position in the start's L1 word, take its top bit if any is
left, otherwise scan lower L1 words. -/
def find_next_highest_active_idx (b : OrderBookImpl) (start_idx : Nat) :
    Option Nat :=
  let start_l1_idx := start_idx / 64
  let current_bit := start_idx % 64
  let mask := 2 ^ current_bit - 1
  let word := b.bid_l1 start_l1_idx &&& mask
  if word ≠ 0 then some (start_l1_idx * 64 + msb64 word)
  else scan_down_bid b start_l1_idx

/-- Embedding of the scan over higher L1 words in
`find_next_lowest_active_idx`: `for i in (start_l1_idx + 1)..L1_SIZE`,
driven by the count of words left to scan. -/
def scan_up_ask (b : OrderBookImpl) : Nat → Nat → Option Nat
  | 0, _ => none
  | left + 1, i =>
    let l1_word := b.ask_l1 i
    if l1_word ≠ 0 then some (i * 64 + ctz64 l1_word)
    else scan_up_ask b left (i + 1)

/-- Embedding of `find_next_lowest_active_idx` with Rust release-mode shift
semantics: the source computes the mask as
`!((1u64 << (current_bit + 1)).wrapping_sub(1))`, and for `current_bit = 63`
the shift amount 64 overflows — a release build masks the shift amount mod
64 (`1 << 0 = 1`), making the mask `!0 = u64::MAX` instead of `0`
(a debug build panics there). -/
def find_next_lowest_active_idx (b : OrderBookImpl) (start_idx : Nat) :
    Option Nat :=
  let start_l1_idx := start_idx / 64
  let current_bit := start_idx % 64
  let mask := u64not ((2 ^ ((current_bit + 1) % 64) + 2 ^ 64 - 1) % 2 ^ 64)
  let word := b.ask_l1 start_l1_idx &&& mask
  if word ≠ 0 then some (start_l1_idx * 64 + ctz64 word)
  else scan_up_ask b (L1_SIZE - (start_l1_idx + 1)) (start_l1_idx + 1)

/-- Run a list of updates left to right from a given state. -/
def applyUpdates (b : OrderBookImpl) (us : List Update) : OrderBookImpl :=
  us.foldl apply_update b

end OrderBookImpl

/-! Helper lemmas about 64-bit words embedded as bounded naturals. -/

theorem CAP_eq : CAP = 65536 := rfl

theorem L1_SIZE_eq : L1_SIZE = 1024 := rfl

theorem L2_SIZE_eq : L2_SIZE = 16 := rfl

theorem maskIdx_lt (p : Int) : maskIdx p < CAP := by
  have h : (0 : Int) < (CAP : Int) := by decide
  have := Int.emod_lt_of_pos p h
  have h0 := Int.emod_nonneg p (by decide : (CAP : Int) ≠ 0)
  unfold maskIdx
  omega

theorem testBit_u64not (x m : Nat) (hm : m < 64) :
    (u64not x).testBit m = !x.testBit m := by
  unfold u64not
  rw [Nat.testBit_xor, Nat.testBit_two_pow_sub_one]
  simp [hm, Bool.xor_comm]

theorem ne_zero_of_testBit {w k : Nat} (h : w.testBit k = true) : w ≠ 0 := by
  intro h0; subst h0; simp [Nat.zero_testBit] at h

theorem eq_zero_of_bits {w n : Nat} (hw : w < 2 ^ n)
    (h : ∀ m, m < n → w.testBit m = false) : w = 0 := by
  apply Nat.eq_of_testBit_eq
  intro i
  rw [Nat.zero_testBit]
  rcases Nat.lt_or_ge i n with hi | hi
  · exact h i hi
  · exact Nat.testBit_lt_two_pow (Nat.lt_of_lt_of_le hw (Nat.pow_le_pow_right (by omega) hi))

theorem ge_two_pow_of_testBit {w k : Nat} (h : w.testBit k = true) : 2 ^ k ≤ w := by
  by_contra hlt
  rw [Nat.testBit_lt_two_pow (by omega)] at h
  exact Bool.false_ne_true h

theorem testBit_lt_of_lt {w n k : Nat} (hw : w < 2 ^ n) (h : w.testBit k = true) :
    k < n := by
  have := ge_two_pow_of_testBit h
  by_contra hk
  have : 2 ^ n ≤ 2 ^ k := Nat.pow_le_pow_right (by omega) (by omega)
  omega

theorem testBit_and_not_two_pow_self {w k : Nat} (hk : k < 64) :
    (w &&& u64not (2 ^ k)).testBit k = false := by
  rw [Nat.testBit_and, testBit_u64not _ _ hk, Nat.testBit_two_pow_self]
  simp

theorem testBit_and_not_two_pow_of_ne {w k m : Nat} (hm : m < 64) (hne : m ≠ k) :
    (w &&& u64not (2 ^ k)).testBit m = w.testBit m := by
  rw [Nat.testBit_and, testBit_u64not _ _ hm,
    Nat.testBit_two_pow_of_ne (fun h => hne h.symm)]
  simp

theorem and_not_lt {w x : Nat} (hw : w < 2 ^ 64) : w &&& x < 2 ^ 64 :=
  Nat.lt_of_le_of_lt Nat.and_le_left hw

theorem or_two_pow_lt {w k : Nat} (hw : w < 2 ^ 64) (hk : k < 64) :
    w ||| 2 ^ k < 2 ^ 64 :=
  Nat.or_lt_two_pow hw (Nat.pow_lt_pow_right (by omega) hk)

theorem testBit_or_two_pow_self (w k : Nat) :
    (w ||| 2 ^ k).testBit k = true := by
  rw [Nat.testBit_or, Nat.testBit_two_pow_self]; simp

theorem testBit_or_two_pow_of_ne {k m : Nat} (w : Nat) (hne : m ≠ k) :
    (w ||| 2 ^ k).testBit m = w.testBit m := by
  rw [Nat.testBit_or, Nat.testBit_two_pow_of_ne (fun h => hne h.symm)]
  simp

theorem and_two_pow_eq_zero_iff (w k : Nat) :
    w &&& 2 ^ k = 0 ↔ w.testBit k = false := by
  constructor
  · intro h
    have := congrArg (fun x => x.testBit k) h
    simpa [Nat.testBit_and, Nat.testBit_two_pow_self, Nat.zero_testBit] using this
  · intro h
    apply Nat.eq_of_testBit_eq
    intro i
    rw [Nat.testBit_and, Nat.zero_testBit]
    rcases Decidable.eq_or_ne i k with rfl | hne
    · simp [h]
    · simp [Nat.testBit_two_pow_of_ne (fun hh => hne hh.symm)]

/-! Characterization of `log2Go` (the `msb64` scan) and `ctzGo`. -/

theorem log2Go_eq_log2 : ∀ fuel n, n < 2 ^ fuel → log2Go fuel n = Nat.log2 n := by
  intro fuel
  induction fuel with
  | zero =>
    intro n hn
    interval_cases n
    unfold log2Go Nat.log2
    simp
  | succ fuel ih =>
    intro n hn
    rcases Nat.lt_or_ge n 2 with h2 | h2
    · unfold log2Go Nat.log2
      simp [h2, show ¬ 2 ≤ n by omega]
    · have hhalf : n / 2 < 2 ^ fuel := by
        have := Nat.pow_succ 2 fuel  -- unfolds 2 ^ (fuel+1)
        omega
      unfold log2Go Nat.log2
      simp only [show ¬ n < 2 by omega, if_false, show 2 ≤ n by omega, if_true]
      rw [ih _ hhalf]

theorem msb64_eq_log2 {n : Nat} (hn : n < 2 ^ 64) : msb64 n = Nat.log2 n :=
  log2Go_eq_log2 64 n hn

theorem testBit_log2 {n : Nat} (hn : n ≠ 0) : n.testBit n.log2 = true := by
  have h1 : 2 ^ n.log2 ≤ n := Nat.log2_self_le hn
  have h2 : n < 2 ^ (n.log2 + 1) := Nat.lt_log2_self
  rw [Nat.testBit_to_div_mod]
  rw [Nat.pow_succ] at h2
  have hdiv : n / 2 ^ n.log2 = 1 := Nat.div_eq_of_lt_le (by omega) (by omega)
  simp [hdiv]

theorem le_log2_of_testBit {n k : Nat} (h : n.testBit k = true) : k ≤ n.log2 := by
  have h1 : 2 ^ k ≤ n := ge_two_pow_of_testBit h
  have hn : n ≠ 0 := by
    have : 0 < 2 ^ k := Nat.pos_pow_of_pos k (by omega)
    omega
  exact (Nat.le_log2 hn).2 h1

theorem log2_lt_of_lt {n k : Nat} (hn : n ≠ 0) (h : n < 2 ^ k) : n.log2 < k :=
  (Nat.log2_lt hn).2 h

theorem ctzGo_spec : ∀ fuel n, n ≠ 0 → n < 2 ^ fuel →
    n.testBit (ctzGo fuel n) = true ∧ ∀ k, n.testBit k = true → ctzGo fuel n ≤ k := by
  intro fuel
  induction fuel with
  | zero => intro n hn hlt; omega
  | succ fuel ih =>
    intro n hn hlt
    unfold ctzGo
    rcases Decidable.eq_or_ne (n % 2) 1 with hodd | heven
    · simp only [hodd, if_true]
      refine ⟨by simp [hodd], fun k _ => Nat.zero_le k⟩
    · have hmod : n % 2 = 0 := by omega
      simp only [heven, if_false]
      have hhalf_ne : n / 2 ≠ 0 := by omega
      have hhalf_lt : n / 2 < 2 ^ fuel := by
        have := Nat.pow_succ 2 fuel
        omega
      obtain ⟨hbit, hmin⟩ := ih (n / 2) hhalf_ne hhalf_lt
      refine ⟨by rw [Nat.testBit_add_one]; exact hbit, ?_⟩
      intro k hk
      match k with
      | 0 => simp [hmod] at hk
      | k + 1 =>
        rw [Nat.testBit_add_one] at hk
        exact Nat.succ_le_succ (hmin k hk)

theorem ctz64_testBit {n : Nat} (hn : n ≠ 0) (hlt : n < 2 ^ 64) :
    n.testBit (ctz64 n) = true := (ctzGo_spec 64 n hn hlt).1

theorem ctz64_min {n : Nat} (hn : n ≠ 0) (hlt : n < 2 ^ 64) :
    ∀ k, n.testBit k = true → ctz64 n ≤ k := (ctzGo_spec 64 n hn hlt).2

/-- A pointwise single-index update shifts a sum over `Finset.range CAP` by
replacing the old value with the new one. -/
theorem sum_pointwise_update (f : Nat → Nat) (i v : Nat) (hi : i < CAP) :
    (∑ j ∈ Finset.range CAP, (if j = i then v else f j)) + f i
      = (∑ j ∈ Finset.range CAP, f j) + v := by
  have hmem : i ∈ Finset.range CAP := Finset.mem_range.2 hi
  have h1 := Finset.add_sum_erase (Finset.range CAP)
    (fun j => if j = i then v else f j) hmem
  have h2 := Finset.add_sum_erase (Finset.range CAP) f hmem
  have h3 : ∑ j ∈ (Finset.range CAP).erase i, (if j = i then v else f j)
      = ∑ j ∈ (Finset.range CAP).erase i, f j := by
    apply Finset.sum_congr rfl
    intro j hj
    have : j ≠ i := Finset.ne_of_mem_erase hj
    simp [this]
  simp only [ite_true, eq_self_iff_true, if_true] at h1
  simp only [h3] at h1
  omega

theorem qty_le_sum (f : Nat → Nat) (i : Nat) (hi : i < CAP) :
    f i ≤ ∑ j ∈ Finset.range CAP, f j :=
  Finset.single_le_sum (fun j _ => Nat.zero_le (f j)) (Finset.mem_range.2 hi)

theorem div64_L1 {i : Nat} (h : i < CAP) : i / 64 < L1_SIZE := by
  rw [L1_SIZE_eq]; rw [CAP_eq] at h; omega

theorem div64_L2 {w : Nat} (h : w < L1_SIZE) : w / 64 < L2_SIZE := by
  rw [L2_SIZE_eq]; rw [L1_SIZE_eq] at h; omega

/-! The tier-consistency predicate: bit `j` of the word at index `j / 64` of
the upper tier is set exactly when entry `j` of the lower tier is non-zero.
With `N = CAP` this relates L1 words to slot quantities, with `N = L1_SIZE`
it relates L2 words to L1 words, and with `N = L2_SIZE` and the upper tier
a constant function it relates the root word to L2 words. -/

def TierConsistent (N : Nat) (hi lo : Nat → Nat) : Prop :=
  ∀ j, j < N → ((hi (j / 64)).testBit (j % 64) = true ↔ lo j ≠ 0)

theorem tier_clear {N : Nat} {hi lo : Nat → Nat} (h : TierConsistent N hi lo)
    (i : Nat) (hiN : i < N) :
    TierConsistent N
      (fun w => if w = i / 64 then hi (i / 64) &&& u64not (2 ^ (i % 64)) else hi w)
      (fun j => if j = i then 0 else lo j) := by
  intro j hj
  by_cases hji : j = i
  · subst hji
    have hb := testBit_and_not_two_pow_self (w := hi (j / 64)) (k := j % 64) (by omega)
    simp [hb]
  · simp only [if_neg hji]
    by_cases hw : j / 64 = i / 64
    · rw [hw, if_pos rfl]
      have hm : j % 64 ≠ i % 64 := by omega
      rw [testBit_and_not_two_pow_of_ne (by omega) hm, ← hw]
      exact h j hj
    · rw [if_neg hw]
      exact h j hj

theorem tier_set {N : Nat} {hi lo : Nat → Nat} (h : TierConsistent N hi lo)
    (i : Nat) (hiN : i < N) (v : Nat) (hv : v ≠ 0) :
    TierConsistent N
      (fun w => if w = i / 64 then hi (i / 64) ||| 2 ^ (i % 64) else hi w)
      (fun j => if j = i then v else lo j) := by
  intro j hj
  by_cases hji : j = i
  · subst hji
    have hb := testBit_or_two_pow_self (hi (j / 64)) (j % 64)
    simp [hb, hv]
  · simp only [if_neg hji]
    by_cases hw : j / 64 = i / 64
    · rw [hw, if_pos rfl]
      rw [testBit_or_two_pow_of_ne _ (show j % 64 ≠ i % 64 by omega), ← hw]
      exact h j hj
    · rw [if_neg hw]
      exact h j hj

theorem tier_update_same {N : Nat} {hi lo : Nat → Nat} (h : TierConsistent N hi lo)
    (i : Nat) (hiN : i < N) (v : Nat) (hv : (v ≠ 0) ↔ lo i ≠ 0) :
    TierConsistent N hi (fun j => if j = i then v else lo j) := by
  intro j hj
  by_cases hji : j = i
  · subst hji
    simpa using (h _ hiN).trans hv.symm
  · simp only [if_neg hji]
    exact h j hj

theorem tier_congr {N : Nat} {hi hi' lo lo' : Nat → Nat} (h : TierConsistent N hi lo)
    (hh : ∀ j, j < N → hi' (j / 64) = hi (j / 64)) (hl : ∀ j, j < N → lo' j = lo j) :
    TierConsistent N hi' lo' := by
  intro j hj
  rw [hh j hj, hl j hj]
  exact h j hj

/-- Per-side structural invariant of the book, relating one side's slot
table, bitmap tiers, running total and stored prices.  It is maintained by
every update (proved below), with no precondition on the update stream. -/
structure SideOk (qty : Nat → Nat) (prices : Nat → Int) (l1 l2 : Nat → Nat)
    (root total : Nat) : Prop where
  l1_lt : ∀ j, l1 j < 2 ^ 64
  l2_lt : ∀ k, l2 k < 2 ^ 64
  root_lt : root < 2 ^ 16
  t1 : TierConsistent CAP l1 qty
  t2 : TierConsistent L1_SIZE l2 l1
  t3 : TierConsistent L2_SIZE (fun _ => root) l2
  total_eq : total = ∑ i ∈ Finset.range CAP, qty i
  masked : ∀ i, i < CAP → qty i ≠ 0 → maskIdx (prices i) = i

/-- Bid-side instance of the structural invariant. -/
def BidOk (b : OrderBookImpl) : Prop :=
  SideOk b.bid_quantities b.bid_prices b.bid_l1 b.bid_l2 b.root_bid b.total_bid_qty

/-- Ask-side instance of the structural invariant. -/
def AskOk (b : OrderBookImpl) : Prop :=
  SideOk b.ask_quantities b.ask_prices b.ask_l1 b.ask_l2 b.root_ask b.total_ask_qty

/-- Both sides of the structural invariant. -/
def BookOk (b : OrderBookImpl) : Prop := BidOk b ∧ AskOk b

section SideCases

variable {qty : Nat → Nat} {prices : Nat → Int} {l1 l2 : Nat → Nat} {root total : Nat}

/-- Writing quantity 0 to an already-empty slot preserves the invariant. -/
theorem sideOk_noop (h : SideOk qty prices l1 l2 root total) (p : Int)
    (hz : qty (maskIdx p) = 0) :
    SideOk (fun j => if j = maskIdx p then 0 else qty j)
      (fun j => if j = maskIdx p then p else prices j) l1 l2 root total := by
  obtain ⟨h1, h2, h3, t1, t2, t3, htot, hm⟩ := h
  have hi := maskIdx_lt p
  refine ⟨h1, h2, h3, ?_, t2, t3, ?_, ?_⟩
  · exact tier_update_same t1 _ hi 0 (by simp [hz])
  · have := sum_pointwise_update qty (maskIdx p) 0 hi
    omega
  · intro j hj hjq
    by_cases hji : j = maskIdx p
    · subst hji; simp at hjq
    · simp only [if_neg hji] at hjq ⊢
      exact hm j hj hjq

/-- Removal from an occupied slot whose L1 word stays non-zero. -/
theorem sideOk_remove_keep (h : SideOk qty prices l1 l2 root total) (p : Int)
    (hqi : qty (maskIdx p) ≠ 0)
    (hv : l1 (maskIdx p / 64) &&& u64not (2 ^ (maskIdx p % 64)) ≠ 0) :
    SideOk (fun j => if j = maskIdx p then 0 else qty j)
      (fun j => if j = maskIdx p then p else prices j)
      (fun j => if j = maskIdx p / 64 then
          l1 (maskIdx p / 64) &&& u64not (2 ^ (maskIdx p % 64)) else l1 j)
      l2 root (total - qty (maskIdx p)) := by
  obtain ⟨h1, h2, h3, t1, t2, t3, htot, hm⟩ := h
  have hi := maskIdx_lt p
  have hw1 : maskIdx p / 64 < L1_SIZE := div64_L1 hi
  refine ⟨?_, h2, h3, ?_, ?_, t3, ?_, ?_⟩
  · intro j
    by_cases hj : j = maskIdx p / 64 <;> simp only [hj, if_pos, if_neg, ite_true, ite_false]
    · exact and_not_lt (h1 _)
    · exact h1 j
  · exact tier_clear t1 (maskIdx p) hi
  · have hbit : (l1 (maskIdx p / 64)).testBit (maskIdx p % 64) = true :=
      (t1 (maskIdx p) hi).mpr hqi
    exact tier_update_same t2 _ hw1 _
      ⟨fun _ => ne_zero_of_testBit hbit, fun _ => hv⟩
  · have hs := sum_pointwise_update qty (maskIdx p) 0 hi
    have hle := qty_le_sum qty (maskIdx p) hi
    omega
  · intro j hj hjq
    by_cases hji : j = maskIdx p
    · subst hji; simp at hjq
    · simp only [if_neg hji] at hjq ⊢
      exact hm j hj hjq

/-- Removal that zeroes the L1 word while its L2 word stays non-zero. -/
theorem sideOk_remove_l1zero (h : SideOk qty prices l1 l2 root total) (p : Int)
    (hqi : qty (maskIdx p) ≠ 0)
    (hv0 : l1 (maskIdx p / 64) &&& u64not (2 ^ (maskIdx p % 64)) = 0)
    (hl2v : l2 (maskIdx p / 64 / 64) &&& u64not (2 ^ (maskIdx p / 64 % 64)) ≠ 0) :
    SideOk (fun j => if j = maskIdx p then 0 else qty j)
      (fun j => if j = maskIdx p then p else prices j)
      (fun j => if j = maskIdx p / 64 then 0 else l1 j)
      (fun j => if j = maskIdx p / 64 / 64 then
          l2 (maskIdx p / 64 / 64) &&& u64not (2 ^ (maskIdx p / 64 % 64)) else l2 j)
      root (total - qty (maskIdx p)) := by
  obtain ⟨h1, h2, h3, t1, t2, t3, htot, hm⟩ := h
  have hi := maskIdx_lt p
  have hw1 : maskIdx p / 64 < L1_SIZE := div64_L1 hi
  have hw2 : maskIdx p / 64 / 64 < L2_SIZE := div64_L2 hw1
  have hl1ne : l1 (maskIdx p / 64) ≠ 0 :=
    ne_zero_of_testBit ((t1 (maskIdx p) hi).mpr hqi)
  refine ⟨?_, ?_, h3, ?_, ?_, ?_, ?_, ?_⟩
  · intro j
    by_cases hj : j = maskIdx p / 64 <;> simp only [hj, ite_true, ite_false, if_neg]
    · omega
    · exact h1 j
  · intro k
    by_cases hk : k = maskIdx p / 64 / 64 <;> simp only [hk, ite_true, ite_false, if_neg]
    · exact and_not_lt (h2 _)
    · exact h2 k
  · refine tier_congr (tier_clear t1 (maskIdx p) hi) ?_ (fun j _ => rfl)
    intro j hj
    by_cases hw : j / 64 = maskIdx p / 64 <;> simp [hw, hv0]
  · exact tier_clear t2 (maskIdx p / 64) hw1
  · have hb2 : (l2 (maskIdx p / 64 / 64)).testBit (maskIdx p / 64 % 64) = true :=
      (t2 _ hw1).mpr hl1ne
    exact tier_update_same t3 _ hw2 _
      ⟨fun _ => ne_zero_of_testBit hb2, fun _ => hl2v⟩
  · have hs := sum_pointwise_update qty (maskIdx p) 0 hi
    have hle := qty_le_sum qty (maskIdx p) hi
    omega
  · intro j hj hjq
    by_cases hji : j = maskIdx p
    · subst hji; simp at hjq
    · simp only [if_neg hji] at hjq ⊢
      exact hm j hj hjq

/-- Removal that zeroes both the L1 word and its L2 word, clearing the root
bit. -/
theorem sideOk_remove_l2zero (h : SideOk qty prices l1 l2 root total) (p : Int)
    (hqi : qty (maskIdx p) ≠ 0)
    (hv0 : l1 (maskIdx p / 64) &&& u64not (2 ^ (maskIdx p % 64)) = 0)
    (hw0 : l2 (maskIdx p / 64 / 64) &&& u64not (2 ^ (maskIdx p / 64 % 64)) = 0) :
    SideOk (fun j => if j = maskIdx p then 0 else qty j)
      (fun j => if j = maskIdx p then p else prices j)
      (fun j => if j = maskIdx p / 64 then 0 else l1 j)
      (fun j => if j = maskIdx p / 64 / 64 then 0 else l2 j)
      (root &&& u64not (2 ^ (maskIdx p / 64 / 64)))
      (total - qty (maskIdx p)) := by
  obtain ⟨h1, h2, h3, t1, t2, t3, htot, hm⟩ := h
  have hi := maskIdx_lt p
  have hw1 : maskIdx p / 64 < L1_SIZE := div64_L1 hi
  have hw2 : maskIdx p / 64 / 64 < L2_SIZE := div64_L2 hw1
  refine ⟨?_, ?_, ?_, ?_, ?_, ?_, ?_, ?_⟩
  · intro j
    by_cases hj : j = maskIdx p / 64 <;> simp only [hj, ite_true, ite_false, if_neg]
    · omega
    · exact h1 j
  · intro k
    by_cases hk : k = maskIdx p / 64 / 64 <;> simp only [hk, ite_true, ite_false, if_neg]
    · omega
    · exact h2 k
  · exact Nat.lt_of_le_of_lt Nat.and_le_left h3
  · refine tier_congr (tier_clear t1 (maskIdx p) hi) ?_ (fun j _ => rfl)
    intro j hj
    by_cases hw : j / 64 = maskIdx p / 64 <;> simp [hw, hv0]
  · refine tier_congr (tier_clear t2 (maskIdx p / 64) hw1) ?_ (fun j _ => rfl)
    intro j hj
    by_cases hw : j / 64 = maskIdx p / 64 / 64 <;> simp [hw, hw0]
  · refine tier_congr (tier_clear t3 (maskIdx p / 64 / 64) hw2) ?_ (fun j _ => rfl)
    intro j hj
    have hj16 : j < 16 := by rw [L2_SIZE_eq] at hj; omega
    have hjd : j / 64 = 0 := by omega
    have hwd : maskIdx p / 64 / 64 / 64 = 0 := by
      rw [L2_SIZE_eq] at hw2; omega
    have hwm : maskIdx p / 64 / 64 % 64 = maskIdx p / 64 / 64 := by
      rw [L2_SIZE_eq] at hw2; omega
    simp [hjd, hwd, hwm]
  · have hs := sum_pointwise_update qty (maskIdx p) 0 hi
    have hle := qty_le_sum qty (maskIdx p) hi
    omega
  · intro j hj hjq
    by_cases hji : j = maskIdx p
    · subst hji; simp at hjq
    · simp only [if_neg hji] at hjq ⊢
      exact hm j hj hjq

/-- Insertion into a previously empty slot whose L2 bit was clear: L1, L2
and root bits are all set. -/
theorem sideOk_insert_fresh (h : SideOk qty prices l1 l2 root total) (p : Int)
    (q : Nat) (hq : q ≠ 0)
    (htest : l2 (maskIdx p / 64 / 64) &&& 2 ^ (maskIdx p / 64 % 64) = 0) :
    SideOk (fun j => if j = maskIdx p then q else qty j)
      (fun j => if j = maskIdx p then p else prices j)
      (fun j => if j = maskIdx p / 64 then
          l1 (maskIdx p / 64) ||| 2 ^ (maskIdx p % 64) else l1 j)
      (fun j => if j = maskIdx p / 64 / 64 then
          l2 (maskIdx p / 64 / 64) ||| 2 ^ (maskIdx p / 64 % 64) else l2 j)
      (root ||| 2 ^ (maskIdx p / 64 / 64))
      (total + q - qty (maskIdx p)) := by
  obtain ⟨h1, h2, h3, t1, t2, t3, htot, hm⟩ := h
  have hi := maskIdx_lt p
  have hw1 : maskIdx p / 64 < L1_SIZE := div64_L1 hi
  have hw2 : maskIdx p / 64 / 64 < L2_SIZE := div64_L2 hw1
  have hw2' : maskIdx p / 64 / 64 < 16 := by rw [L2_SIZE_eq] at hw2; omega
  refine ⟨?_, ?_, ?_, ?_, ?_, ?_, ?_, ?_⟩
  · intro j
    by_cases hj : j = maskIdx p / 64 <;> simp only [hj, ite_true, ite_false, if_neg]
    · exact Nat.or_lt_two_pow (h1 _) (Nat.pow_lt_pow_right (by omega) (by omega))
    · exact h1 j
  · intro k
    by_cases hk : k = maskIdx p / 64 / 64 <;> simp only [hk, ite_true, ite_false, if_neg]
    · exact Nat.or_lt_two_pow (h2 _) (Nat.pow_lt_pow_right (by omega) (by omega))
    · exact h2 k
  · exact Nat.or_lt_two_pow h3 (Nat.pow_lt_pow_right (by omega) hw2')
  · exact tier_set t1 (maskIdx p) hi q hq
  · exact tier_set t2 (maskIdx p / 64) hw1 _
      (ne_zero_of_testBit (testBit_or_two_pow_self _ _))
  · refine tier_congr
      (tier_set t3 (maskIdx p / 64 / 64) hw2 _
        (ne_zero_of_testBit (testBit_or_two_pow_self _ _))) ?_ (fun j _ => rfl)
    intro j hj
    have hjd : j / 64 = 0 := by rw [L2_SIZE_eq] at hj; omega
    have hwd : maskIdx p / 64 / 64 / 64 = 0 := by omega
    have hwm : maskIdx p / 64 / 64 % 64 = maskIdx p / 64 / 64 := by omega
    simp [hjd, hwd, hwm]
  · have hs := sum_pointwise_update qty (maskIdx p) q hi
    have hle := qty_le_sum qty (maskIdx p) hi
    omega
  · intro j hj hjq
    by_cases hji : j = maskIdx p
    · subst hji; simp
    · simp only [if_neg hji] at hjq ⊢
      exact hm j hj hjq

/-- Insertion into a previously empty slot whose L2 bit was already set:
only the L1 bit is set; L2 and root are untouched. -/
theorem sideOk_insert_l2set (h : SideOk qty prices l1 l2 root total) (p : Int)
    (q : Nat) (hq : q ≠ 0)
    (htest : l2 (maskIdx p / 64 / 64) &&& 2 ^ (maskIdx p / 64 % 64) ≠ 0) :
    SideOk (fun j => if j = maskIdx p then q else qty j)
      (fun j => if j = maskIdx p then p else prices j)
      (fun j => if j = maskIdx p / 64 then
          l1 (maskIdx p / 64) ||| 2 ^ (maskIdx p % 64) else l1 j)
      l2 root (total + q - qty (maskIdx p)) := by
  obtain ⟨h1, h2, h3, t1, t2, t3, htot, hm⟩ := h
  have hi := maskIdx_lt p
  have hw1 : maskIdx p / 64 < L1_SIZE := div64_L1 hi
  have hbit : (l2 (maskIdx p / 64 / 64)).testBit (maskIdx p / 64 % 64) = true := by
    by_contra hb
    exact htest ((and_two_pow_eq_zero_iff _ _).2 (by
      cases hx : (l2 (maskIdx p / 64 / 64)).testBit (maskIdx p / 64 % 64) with
      | false => rfl
      | true => exact absurd hx hb))
  have hl1ne : l1 (maskIdx p / 64) ≠ 0 := (t2 _ hw1).mp hbit
  refine ⟨?_, h2, h3, ?_, ?_, t3, ?_, ?_⟩
  · intro j
    by_cases hj : j = maskIdx p / 64 <;> simp only [hj, ite_true, ite_false, if_neg]
    · exact Nat.or_lt_two_pow (h1 _) (Nat.pow_lt_pow_right (by omega) (by omega))
    · exact h1 j
  · exact tier_set t1 (maskIdx p) hi q hq
  · exact tier_update_same t2 _ hw1 _
      ⟨fun _ => hl1ne, fun _ => ne_zero_of_testBit (testBit_or_two_pow_self _ _)⟩
  · have hs := sum_pointwise_update qty (maskIdx p) q hi
    have hle := qty_le_sum qty (maskIdx p) hi
    omega
  · intro j hj hjq
    by_cases hji : j = maskIdx p
    · subst hji; simp
    · simp only [if_neg hji] at hjq ⊢
      exact hm j hj hjq

/-- Overwriting an occupied slot with a non-zero quantity: no bitmap
change. -/
theorem sideOk_overwrite (h : SideOk qty prices l1 l2 root total) (p : Int)
    (q : Nat) (hq : q ≠ 0) (hqi : qty (maskIdx p) ≠ 0) :
    SideOk (fun j => if j = maskIdx p then q else qty j)
      (fun j => if j = maskIdx p then p else prices j)
      l1 l2 root (total + q - qty (maskIdx p)) := by
  obtain ⟨h1, h2, h3, t1, t2, t3, htot, hm⟩ := h
  have hi := maskIdx_lt p
  refine ⟨h1, h2, h3, ?_, t2, t3, ?_, ?_⟩
  · exact tier_update_same t1 _ hi q ⟨fun _ => hqi, fun _ => hq⟩
  · have hs := sum_pointwise_update qty (maskIdx p) q hi
    have hle := qty_le_sum qty (maskIdx p) hi
    omega
  · intro j hj hjq
    by_cases hji : j = maskIdx p
    · subst hji; simp
    · simp only [if_neg hji] at hjq ⊢
      exact hm j hj hjq

/-- The best-bid recompute changes only the `best_bid` field. -/
theorem find_new_best_bid_shape (b : OrderBookImpl) :
    ∃ p, b.find_new_best_bid = { b with best_bid := p } := by
  unfold OrderBookImpl.find_new_best_bid
  split_ifs
  · exact ⟨i64min, rfl⟩
  · exact ⟨_, rfl⟩

/-- The best-ask recompute changes only the `best_ask` field. -/
theorem find_new_best_ask_shape (b : OrderBookImpl) :
    ∃ p, b.find_new_best_ask = { b with best_ask := p } := by
  unfold OrderBookImpl.find_new_best_ask
  split_ifs
  · exact ⟨i64max, rfl⟩
  · exact ⟨_, rfl⟩

/-- The bid-side structural invariant is preserved by `update_bid` at the
masked index of the written price, with no side condition. -/
theorem bidOk_update_bid (b : OrderBookImpl) (hok : BidOk b) (price : Int) (q : Nat) :
    BidOk (b.update_bid (maskIdx price) price q) := by
  simp only [OrderBookImpl.update_bid]
  split_ifs with hq hold hbest hl1 hl2 hl1b hl2b hz ht hb1 hb2 hb3
  · subst hq
    rw [hl1, hl2]
    obtain ⟨pp, hp⟩ := find_new_best_bid_shape _
    rw [hp]
    exact sideOk_remove_l2zero hok price (by omega) hl1 hl2
  · subst hq
    rw [hl1]
    obtain ⟨pp, hp⟩ := find_new_best_bid_shape _
    rw [hp]
    exact sideOk_remove_l1zero hok price (by omega) hl1 hl2
  · subst hq
    obtain ⟨pp, hp⟩ := find_new_best_bid_shape _
    rw [hp]
    exact sideOk_remove_keep hok price (by omega) hl1
  · subst hq
    rw [hl1b, hl2b]
    exact sideOk_remove_l2zero hok price (by omega) hl1b hl2b
  · subst hq
    rw [hl1b]
    exact sideOk_remove_l1zero hok price (by omega) hl1b hl2b
  · subst hq
    exact sideOk_remove_keep hok price (by omega) hl1b
  · subst hq
    exact sideOk_noop hok price (by omega)
  · exact sideOk_insert_fresh hok price q hq hb1
  · exact sideOk_insert_l2set hok price q hq hb1
  · exact sideOk_overwrite hok price q hq ht
  · exact sideOk_insert_fresh hok price q hq hb3
  · exact sideOk_insert_l2set hok price q hq hb3
  · exact sideOk_overwrite hok price q hq hb2

/-- The ask-side structural invariant is preserved by `update_ask` at the
masked index of the written price, with no side condition. -/
theorem askOk_update_ask (b : OrderBookImpl) (hok : AskOk b) (price : Int) (q : Nat) :
    AskOk (b.update_ask (maskIdx price) price q) := by
  simp only [OrderBookImpl.update_ask]
  split_ifs with hq hold hbest hl1 hl2 hl1b hl2b hz ht hb1 hb2 hb3
  · subst hq
    rw [hl1, hl2]
    obtain ⟨pp, hp⟩ := find_new_best_ask_shape _
    rw [hp]
    exact sideOk_remove_l2zero hok price (by omega) hl1 hl2
  · subst hq
    rw [hl1]
    obtain ⟨pp, hp⟩ := find_new_best_ask_shape _
    rw [hp]
    exact sideOk_remove_l1zero hok price (by omega) hl1 hl2
  · subst hq
    obtain ⟨pp, hp⟩ := find_new_best_ask_shape _
    rw [hp]
    exact sideOk_remove_keep hok price (by omega) hl1
  · subst hq
    rw [hl1b, hl2b]
    exact sideOk_remove_l2zero hok price (by omega) hl1b hl2b
  · subst hq
    rw [hl1b]
    exact sideOk_remove_l1zero hok price (by omega) hl1b hl2b
  · subst hq
    exact sideOk_remove_keep hok price (by omega) hl1b
  · subst hq
    exact sideOk_noop hok price (by omega)
  · exact sideOk_insert_fresh hok price q hq hb1
  · exact sideOk_insert_l2set hok price q hq hb1
  · exact sideOk_overwrite hok price q hq ht
  · exact sideOk_insert_fresh hok price q hq hb3
  · exact sideOk_insert_l2set hok price q hq hb3
  · exact sideOk_overwrite hok price q hq hb2

end SideCases

/-- `update_bid` never touches any ask-side field. -/
theorem update_bid_frame (b : OrderBookImpl) (idx : Nat) (price : Int) (q : Nat) :
    (b.update_bid idx price q).best_ask = b.best_ask ∧
    (b.update_bid idx price q).total_ask_qty = b.total_ask_qty ∧
    (b.update_bid idx price q).root_ask = b.root_ask ∧
    (b.update_bid idx price q).ask_l2 = b.ask_l2 ∧
    (b.update_bid idx price q).ask_l1 = b.ask_l1 ∧
    (b.update_bid idx price q).ask_quantities = b.ask_quantities ∧
    (b.update_bid idx price q).ask_prices = b.ask_prices := by
  simp only [OrderBookImpl.update_bid]
  split_ifs <;>
    first
      | exact ⟨rfl, rfl, rfl, rfl, rfl, rfl, rfl⟩
      | (obtain ⟨p, hp⟩ := find_new_best_bid_shape _
         rw [hp]
         exact ⟨rfl, rfl, rfl, rfl, rfl, rfl, rfl⟩)

/-- `update_ask` never touches any bid-side field. -/
theorem update_ask_frame (b : OrderBookImpl) (idx : Nat) (price : Int) (q : Nat) :
    (b.update_ask idx price q).best_bid = b.best_bid ∧
    (b.update_ask idx price q).total_bid_qty = b.total_bid_qty ∧
    (b.update_ask idx price q).root_bid = b.root_bid ∧
    (b.update_ask idx price q).bid_l2 = b.bid_l2 ∧
    (b.update_ask idx price q).bid_l1 = b.bid_l1 ∧
    (b.update_ask idx price q).bid_quantities = b.bid_quantities ∧
    (b.update_ask idx price q).bid_prices = b.bid_prices := by
  simp only [OrderBookImpl.update_ask]
  split_ifs <;>
    first
      | exact ⟨rfl, rfl, rfl, rfl, rfl, rfl, rfl⟩
      | (obtain ⟨p, hp⟩ := find_new_best_ask_shape _
         rw [hp]
         exact ⟨rfl, rfl, rfl, rfl, rfl, rfl, rfl⟩)

/-- The freshly constructed book satisfies the structural invariant. -/
theorem bookOk_new : BookOk OrderBookImpl.new := by
  constructor <;>
    exact ⟨fun j => by simp [OrderBookImpl.new], fun k => by simp [OrderBookImpl.new],
      by simp [OrderBookImpl.new],
      fun j hj => by simp [OrderBookImpl.new],
      fun j hj => by simp [OrderBookImpl.new],
      fun j hj => by simp [OrderBookImpl.new],
      by simp [OrderBookImpl.new],
      fun i hi hq => absurd rfl hq⟩

/-- One `apply_update` preserves the structural invariant on both sides. -/
theorem bookOk_apply_update (b : OrderBookImpl) (hok : BookOk b) (u : Update) :
    BookOk (b.apply_update u) := by
  obtain ⟨hb, ha⟩ := hok
  cases u with
  | Set p q s =>
    cases s with
    | Bid =>
      refine ⟨bidOk_update_bid b hb p q, ?_⟩
      obtain ⟨e1, e2, e3, e4, e5, e6, e7⟩ := update_bid_frame b (maskIdx p) p q
      unfold AskOk at ha ⊢
      simp only [OrderBookImpl.apply_update]
      rw [e2, e3, e4, e5, e6, e7]
      exact ha
    | Ask =>
      refine ⟨?_, askOk_update_ask b ha p q⟩
      obtain ⟨e1, e2, e3, e4, e5, e6, e7⟩ := update_ask_frame b (maskIdx p) p q
      unfold BidOk at hb ⊢
      simp only [OrderBookImpl.apply_update]
      rw [e2, e3, e4, e5, e6, e7]
      exact hb
  | Remove p s =>
    cases s with
    | Bid =>
      refine ⟨bidOk_update_bid b hb p 0, ?_⟩
      obtain ⟨e1, e2, e3, e4, e5, e6, e7⟩ := update_bid_frame b (maskIdx p) p 0
      unfold AskOk at ha ⊢
      simp only [OrderBookImpl.apply_update]
      rw [e2, e3, e4, e5, e6, e7]
      exact ha
    | Ask =>
      refine ⟨?_, askOk_update_ask b ha p 0⟩
      obtain ⟨e1, e2, e3, e4, e5, e6, e7⟩ := update_ask_frame b (maskIdx p) p 0
      unfold BidOk at hb ⊢
      simp only [OrderBookImpl.apply_update]
      rw [e2, e3, e4, e5, e6, e7]
      exact hb

/-- The structural invariant holds along any update sequence. -/
theorem bookOk_applyUpdates (b : OrderBookImpl) (hok : BookOk b) (us : List Update) :
    BookOk (b.applyUpdates us) := by
  induction us generalizing b with
  | nil => exact hok
  | cons u us ih => exact ih _ (bookOk_apply_update b hok u)

/-- Every state reachable from `new` satisfies the structural invariant. -/
theorem bookOk_run (us : List Update) : BookOk (OrderBookImpl.new.applyUpdates us) :=
  bookOk_applyUpdates _ bookOk_new us

/-- `update_bid` always stores the written quantity and price at the slot,
whatever branch is taken. -/
theorem update_bid_qty_prices (b : OrderBookImpl) (i : Nat) (p : Int) (q : Nat) :
    (b.update_bid i p q).bid_quantities
        = (fun j => if j = i then q else b.bid_quantities j) ∧
    (b.update_bid i p q).bid_prices
        = (fun j => if j = i then p else b.bid_prices j) := by
  simp only [OrderBookImpl.update_bid]
  split_ifs <;>
    first
      | exact ⟨rfl, rfl⟩
      | (obtain ⟨pp, hp⟩ := find_new_best_bid_shape _
         rw [hp]
         exact ⟨rfl, rfl⟩)

/-- `update_ask` always stores the written quantity and price at the slot. -/
theorem update_ask_qty_prices (b : OrderBookImpl) (i : Nat) (p : Int) (q : Nat) :
    (b.update_ask i p q).ask_quantities
        = (fun j => if j = i then q else b.ask_quantities j) ∧
    (b.update_ask i p q).ask_prices
        = (fun j => if j = i then p else b.ask_prices j) := by
  simp only [OrderBookImpl.update_ask]
  split_ifs <;>
    first
      | exact ⟨rfl, rfl⟩
      | (obtain ⟨pp, hp⟩ := find_new_best_ask_shape _
         rw [hp]
         exact ⟨rfl, rfl⟩)

/-- After inserting a non-zero quantity the cached best bid is at least the
written price (the opportunistic compare-and-set). -/
theorem update_bid_best_ge (b : OrderBookImpl) (i : Nat) (p : Int) (q : Nat)
    (hq : q ≠ 0) : p ≤ (b.update_bid i p q).best_bid := by
  simp only [OrderBookImpl.update_bid]
  split_ifs with h1 h2 h3 <;> first
    | exact absurd h1 hq
    | exact le_refl p
    | (dsimp only; omega)

/-- After inserting a non-zero quantity the cached best ask is at most the
written price. -/
theorem update_ask_best_le (b : OrderBookImpl) (i : Nat) (p : Int) (q : Nat)
    (hq : q ≠ 0) : (b.update_ask i p q).best_ask ≤ p := by
  simp only [OrderBookImpl.update_ask]
  split_ifs with h1 h2 h3 <;> first
    | exact absurd h1 hq
    | exact le_refl p
    | (dsimp only; omega)

/-- A repeated `update_bid` with identical arguments is a no-op at the state
level. -/
theorem update_bid_idem (b : OrderBookImpl) (i : Nat) (p : Int) (q : Nat) :
    (b.update_bid i p q).update_bid i p q = b.update_bid i p q := by
  have hqty := (update_bid_qty_prices b i p q).1
  have hpr := (update_bid_qty_prices b i p q).2
  set X := b.update_bid i p q with hX
  have hXq : X.bid_quantities i = q := by rw [hqty]; simp
  have hXp : X.bid_prices i = p := by rw [hpr]; simp
  have e1 : (fun j => if j = i then q else X.bid_quantities j) = X.bid_quantities := by
    funext j
    by_cases hj : j = i
    · subst hj; simp [hXq]
    · simp [hj]
  have e2 : (fun j => if j = i then p else X.bid_prices j) = X.bid_prices := by
    funext j
    by_cases hj : j = i
    · subst hj; simp [hXp]
    · simp [hj]
  by_cases hq : q = 0
  · subst hq
    simp only [OrderBookImpl.update_bid, if_pos rfl]
    rw [if_neg (by omega : ¬ 0 < X.bid_quantities i)]
    rw [e1, e2, if_pos trivial]
  · have hbest : ¬ X.best_bid < p := not_lt.2 (update_bid_best_ge b i p q hq)
    simp only [OrderBookImpl.update_bid]
    rw [if_neg hq, if_neg (by omega : ¬ X.bid_quantities i = 0), if_neg hbest]
    rw [hXq]
    have e3 : X.total_bid_qty + q - q = X.total_bid_qty := by omega
    rw [e3, e1, e2]

/-- A repeated `update_ask` with identical arguments is a no-op at the state
level. -/
theorem update_ask_idem (b : OrderBookImpl) (i : Nat) (p : Int) (q : Nat) :
    (b.update_ask i p q).update_ask i p q = b.update_ask i p q := by
  have hqty := (update_ask_qty_prices b i p q).1
  have hpr := (update_ask_qty_prices b i p q).2
  set X := b.update_ask i p q with hX
  have hXq : X.ask_quantities i = q := by rw [hqty]; simp
  have hXp : X.ask_prices i = p := by rw [hpr]; simp
  have e1 : (fun j => if j = i then q else X.ask_quantities j) = X.ask_quantities := by
    funext j
    by_cases hj : j = i
    · subst hj; simp [hXq]
    · simp [hj]
  have e2 : (fun j => if j = i then p else X.ask_prices j) = X.ask_prices := by
    funext j
    by_cases hj : j = i
    · subst hj; simp [hXp]
    · simp [hj]
  by_cases hq : q = 0
  · subst hq
    simp only [OrderBookImpl.update_ask, if_pos rfl]
    rw [if_neg (by omega : ¬ 0 < X.ask_quantities i)]
    rw [e1, e2, if_pos trivial]
  · have hbest : ¬ p < X.best_ask := not_lt.2 (update_ask_best_le b i p q hq)
    simp only [OrderBookImpl.update_ask]
    rw [if_neg hq, if_neg (by omega : ¬ X.ask_quantities i = 0), if_neg hbest]
    rw [hXq]
    have e3 : X.total_ask_qty + q - q = X.total_ask_qty := by omega
    rw [e3, e1, e2]

/-! Correctness of the three-tier most/least-significant-bit scans under the
structural invariant. -/

/-- Climbing the tiers: an occupied slot forces the corresponding L1, L2 and
root bits to be set. -/
theorem bits_of_occupied_bid (b : OrderBookImpl) (hok : BidOk b) {i : Nat}
    (hi : i < CAP) (hq : b.bid_quantities i ≠ 0) :
    (b.bid_l1 (i / 64)).testBit (i % 64) = true ∧
    (b.bid_l2 (i / 64 / 64)).testBit (i / 64 % 64) = true ∧
    b.root_bid.testBit (i / 64 / 64) = true := by
  have h1 : (b.bid_l1 (i / 64)).testBit (i % 64) = true := (hok.t1 i hi).mpr hq
  have hw1 : i / 64 < L1_SIZE := div64_L1 hi
  have h2 : (b.bid_l2 (i / 64 / 64)).testBit (i / 64 % 64) = true :=
    (hok.t2 (i / 64) hw1).mpr (ne_zero_of_testBit h1)
  have hw2 : i / 64 / 64 < L2_SIZE := div64_L2 hw1
  have h3 := (hok.t3 (i / 64 / 64) hw2).mpr (ne_zero_of_testBit h2)
  have hm : i / 64 / 64 % 64 = i / 64 / 64 := by rw [L2_SIZE_eq] at hw2; omega
  rw [hm] at h3
  exact ⟨h1, h2, h3⟩

/-- Ask-side version of `bits_of_occupied_bid`. -/
theorem bits_of_occupied_ask (b : OrderBookImpl) (hok : AskOk b) {i : Nat}
    (hi : i < CAP) (hq : b.ask_quantities i ≠ 0) :
    (b.ask_l1 (i / 64)).testBit (i % 64) = true ∧
    (b.ask_l2 (i / 64 / 64)).testBit (i / 64 % 64) = true ∧
    b.root_ask.testBit (i / 64 / 64) = true := by
  have h1 : (b.ask_l1 (i / 64)).testBit (i % 64) = true := (hok.t1 i hi).mpr hq
  have hw1 : i / 64 < L1_SIZE := div64_L1 hi
  have h2 : (b.ask_l2 (i / 64 / 64)).testBit (i / 64 % 64) = true :=
    (hok.t2 (i / 64) hw1).mpr (ne_zero_of_testBit h1)
  have hw2 : i / 64 / 64 < L2_SIZE := div64_L2 hw1
  have h3 := (hok.t3 (i / 64 / 64) hw2).mpr (ne_zero_of_testBit h2)
  have hm : i / 64 / 64 % 64 = i / 64 / 64 := by rw [L2_SIZE_eq] at hw2; omega
  rw [hm] at h3
  exact ⟨h1, h2, h3⟩

/-- On a side with no occupied slot the root word is zero. -/
theorem root_bid_zero_of_empty (b : OrderBookImpl) (hok : BidOk b)
    (hempty : ∀ i, i < CAP → b.bid_quantities i = 0) : b.root_bid = 0 := by
  have hl1 : ∀ j, j < L1_SIZE → b.bid_l1 j = 0 := by
    intro j hj
    refine eq_zero_of_bits (hok.l1_lt j) ?_
    intro m hm
    have hi : 64 * j + m < CAP := by rw [L1_SIZE_eq] at hj; rw [CAP_eq]; omega
    have := hok.t1 (64 * j + m) hi
    have hd : (64 * j + m) / 64 = j := by omega
    have hmm : (64 * j + m) % 64 = m := by omega
    rw [hd, hmm] at this
    rcases hx : (b.bid_l1 j).testBit m with _ | _
    · rfl
    · exact absurd (hempty _ hi) (this.mp hx)
  have hl2 : ∀ k, k < L2_SIZE → b.bid_l2 k = 0 := by
    intro k hk
    refine eq_zero_of_bits (hok.l2_lt k) ?_
    intro m hm
    have hj : 64 * k + m < L1_SIZE := by rw [L2_SIZE_eq] at hk; rw [L1_SIZE_eq]; omega
    have := hok.t2 (64 * k + m) hj
    have hd : (64 * k + m) / 64 = k := by omega
    have hmm : (64 * k + m) % 64 = m := by omega
    rw [hd, hmm] at this
    rcases hx : (b.bid_l2 k).testBit m with _ | _
    · rfl
    · exact absurd (hl1 _ hj) (this.mp hx)
  refine eq_zero_of_bits hok.root_lt ?_
  intro m hm
  have hm16 : m < L2_SIZE := by rw [L2_SIZE_eq]; omega
  have := hok.t3 m hm16
  have hmm : m % 64 = m := by omega
  simp only [hmm] at this
  rcases hx : b.root_bid.testBit m with _ | _
  · rfl
  · exact absurd (hl2 _ hm16) (this.mp hx)

/-- Ask-side version of `root_bid_zero_of_empty`. -/
theorem root_ask_zero_of_empty (b : OrderBookImpl) (hok : AskOk b)
    (hempty : ∀ i, i < CAP → b.ask_quantities i = 0) : b.root_ask = 0 := by
  have hl1 : ∀ j, j < L1_SIZE → b.ask_l1 j = 0 := by
    intro j hj
    refine eq_zero_of_bits (hok.l1_lt j) ?_
    intro m hm
    have hi : 64 * j + m < CAP := by rw [L1_SIZE_eq] at hj; rw [CAP_eq]; omega
    have := hok.t1 (64 * j + m) hi
    have hd : (64 * j + m) / 64 = j := by omega
    have hmm : (64 * j + m) % 64 = m := by omega
    rw [hd, hmm] at this
    rcases hx : (b.ask_l1 j).testBit m with _ | _
    · rfl
    · exact absurd (hempty _ hi) (this.mp hx)
  have hl2 : ∀ k, k < L2_SIZE → b.ask_l2 k = 0 := by
    intro k hk
    refine eq_zero_of_bits (hok.l2_lt k) ?_
    intro m hm
    have hj : 64 * k + m < L1_SIZE := by rw [L2_SIZE_eq] at hk; rw [L1_SIZE_eq]; omega
    have := hok.t2 (64 * k + m) hj
    have hd : (64 * k + m) / 64 = k := by omega
    have hmm : (64 * k + m) % 64 = m := by omega
    rw [hd, hmm] at this
    rcases hx : (b.ask_l2 k).testBit m with _ | _
    · rfl
    · exact absurd (hl1 _ hj) (this.mp hx)
  refine eq_zero_of_bits hok.root_lt ?_
  intro m hm
  have hm16 : m < L2_SIZE := by rw [L2_SIZE_eq]; omega
  have := hok.t3 m hm16
  have hmm : m % 64 = m := by omega
  simp only [hmm] at this
  rcases hx : b.root_ask.testBit m with _ | _
  · rfl
  · exact absurd (hl2 _ hm16) (this.mp hx)

/-- Three most-significant-bit scans down consistent tiers land on the
greatest occupied slot index. -/
theorem three_level_msb (root : Nat) (l2f l1f qty : Nat → Nat)
    (hroot16 : root < 2 ^ 16) (hl2lt : ∀ k, l2f k < 2 ^ 64)
    (hl1lt : ∀ j, l1f j < 2 ^ 64)
    (t1 : TierConsistent CAP l1f qty) (t2 : TierConsistent L1_SIZE l2f l1f)
    (t3 : TierConsistent L2_SIZE (fun _ => root) l2f) (hne : root ≠ 0) :
    (msb64 root * 64 + msb64 (l2f (msb64 root))) * 64
        + msb64 (l1f (msb64 root * 64 + msb64 (l2f (msb64 root)))) < CAP ∧
    qty ((msb64 root * 64 + msb64 (l2f (msb64 root))) * 64
        + msb64 (l1f (msb64 root * 64 + msb64 (l2f (msb64 root))))) ≠ 0 ∧
    ∀ j, j < CAP → qty j ≠ 0 →
      j ≤ (msb64 root * 64 + msb64 (l2f (msb64 root))) * 64
        + msb64 (l1f (msb64 root * 64 + msb64 (l2f (msb64 root)))) := by
  have hroot64 : root < 2 ^ 64 := Nat.lt_trans hroot16 (by norm_num)
  rw [msb64_eq_log2 hroot64, msb64_eq_log2 (hl2lt (Nat.log2 root)),
    msb64_eq_log2 (hl1lt _)]
  have hl2i16 : Nat.log2 root < 16 := log2_lt_of_lt hne hroot16
  have hl2iL2 : Nat.log2 root < L2_SIZE := by rw [L2_SIZE_eq]; omega
  have hbit_root : root.testBit (Nat.log2 root) = true := testBit_log2 hne
  have hw_ne : l2f (Nat.log2 root) ≠ 0 := by
    have h := t3 (Nat.log2 root) hl2iL2
    dsimp only at h
    have hmm : Nat.log2 root % 64 = Nat.log2 root := by omega
    rw [hmm] at h
    exact h.mp hbit_root
  have hl1off : Nat.log2 (l2f (Nat.log2 root)) < 64 :=
    log2_lt_of_lt hw_ne (hl2lt _)
  have hbit_w : (l2f (Nat.log2 root)).testBit (Nat.log2 (l2f (Nat.log2 root))) = true :=
    testBit_log2 hw_ne
  have hw1L1 : Nat.log2 root * 64 + Nat.log2 (l2f (Nat.log2 root)) < L1_SIZE := by
    rw [L1_SIZE_eq]; omega
  have hv_ne : l1f (Nat.log2 root * 64 + Nat.log2 (l2f (Nat.log2 root))) ≠ 0 := by
    have h := t2 _ hw1L1
    have hd : (Nat.log2 root * 64 + Nat.log2 (l2f (Nat.log2 root))) / 64
        = Nat.log2 root := by omega
    have hmm : (Nat.log2 root * 64 + Nat.log2 (l2f (Nat.log2 root))) % 64
        = Nat.log2 (l2f (Nat.log2 root)) := by omega
    rw [hd, hmm] at h
    exact h.mp hbit_w
  have hbitoff : Nat.log2 (l1f (Nat.log2 root * 64 + Nat.log2 (l2f (Nat.log2 root)))) < 64 :=
    log2_lt_of_lt hv_ne (hl1lt _)
  have hbit_v := testBit_log2 hv_ne
  have hfinCAP : (Nat.log2 root * 64 + Nat.log2 (l2f (Nat.log2 root))) * 64
      + Nat.log2 (l1f (Nat.log2 root * 64 + Nat.log2 (l2f (Nat.log2 root)))) < CAP := by
    rw [CAP_eq]; omega
  refine ⟨hfinCAP, ?_, ?_⟩
  · have h := t1 _ hfinCAP
    have hd : ((Nat.log2 root * 64 + Nat.log2 (l2f (Nat.log2 root))) * 64
        + Nat.log2 (l1f (Nat.log2 root * 64 + Nat.log2 (l2f (Nat.log2 root))))) / 64
        = Nat.log2 root * 64 + Nat.log2 (l2f (Nat.log2 root)) := by omega
    have hmm : ((Nat.log2 root * 64 + Nat.log2 (l2f (Nat.log2 root))) * 64
        + Nat.log2 (l1f (Nat.log2 root * 64 + Nat.log2 (l2f (Nat.log2 root))))) % 64
        = Nat.log2 (l1f (Nat.log2 root * 64 + Nat.log2 (l2f (Nat.log2 root)))) := by omega
    rw [hd, hmm] at h
    exact h.mp hbit_v
  · intro j hj hqj
    have hj1 : (l1f (j / 64)).testBit (j % 64) = true := (t1 j hj).mpr hqj
    have hjw1 : j / 64 < L1_SIZE := div64_L1 hj
    have hj2 : (l2f (j / 64 / 64)).testBit (j / 64 % 64) = true :=
      (t2 _ hjw1).mpr (ne_zero_of_testBit hj1)
    have hjw2 : j / 64 / 64 < L2_SIZE := div64_L2 hjw1
    have hj3 := (t3 _ hjw2).mpr (ne_zero_of_testBit hj2)
    dsimp only at hj3
    have hjmm : j / 64 / 64 % 64 = j / 64 / 64 := by rw [L2_SIZE_eq] at hjw2; omega
    rw [hjmm] at hj3
    have hA : j / 64 / 64 ≤ Nat.log2 root := le_log2_of_testBit hj3
    rcases Nat.lt_or_ge (j / 64 / 64) (Nat.log2 root) with hlt | hge
    · omega
    · have heq : j / 64 / 64 = Nat.log2 root := by omega
      rw [heq] at hj2
      have hB : j / 64 % 64 ≤ Nat.log2 (l2f (Nat.log2 root)) := le_log2_of_testBit hj2
      rcases Nat.lt_or_ge (j / 64) (Nat.log2 root * 64 + Nat.log2 (l2f (Nat.log2 root)))
        with hlt2 | hge2
      · omega
      · have heq2 : j / 64 = Nat.log2 root * 64 + Nat.log2 (l2f (Nat.log2 root)) := by
          omega
        rw [heq2] at hj1
        have hC := le_log2_of_testBit hj1
        omega

/-- Three least-significant-bit scans down consistent tiers land on the
least occupied slot index. -/
theorem three_level_ctz (root : Nat) (l2f l1f qty : Nat → Nat)
    (hroot16 : root < 2 ^ 16) (hl2lt : ∀ k, l2f k < 2 ^ 64)
    (hl1lt : ∀ j, l1f j < 2 ^ 64)
    (t1 : TierConsistent CAP l1f qty) (t2 : TierConsistent L1_SIZE l2f l1f)
    (t3 : TierConsistent L2_SIZE (fun _ => root) l2f) (hne : root ≠ 0) :
    (ctz64 root * 64 + ctz64 (l2f (ctz64 root))) * 64
        + ctz64 (l1f (ctz64 root * 64 + ctz64 (l2f (ctz64 root)))) < CAP ∧
    qty ((ctz64 root * 64 + ctz64 (l2f (ctz64 root))) * 64
        + ctz64 (l1f (ctz64 root * 64 + ctz64 (l2f (ctz64 root))))) ≠ 0 ∧
    ∀ j, j < CAP → qty j ≠ 0 →
      (ctz64 root * 64 + ctz64 (l2f (ctz64 root))) * 64
        + ctz64 (l1f (ctz64 root * 64 + ctz64 (l2f (ctz64 root)))) ≤ j := by
  have hroot64 : root < 2 ^ 64 := Nat.lt_trans hroot16 (by norm_num)
  have hbit_root : root.testBit (ctz64 root) = true := ctz64_testBit hne hroot64
  have hl2i16 : ctz64 root < 16 := testBit_lt_of_lt hroot16 hbit_root
  have hl2iL2 : ctz64 root < L2_SIZE := by rw [L2_SIZE_eq]; omega
  have hw_ne : l2f (ctz64 root) ≠ 0 := by
    have h := t3 (ctz64 root) hl2iL2
    dsimp only at h
    have hmm : ctz64 root % 64 = ctz64 root := by omega
    rw [hmm] at h
    exact h.mp hbit_root
  have hbit_w : (l2f (ctz64 root)).testBit (ctz64 (l2f (ctz64 root))) = true :=
    ctz64_testBit hw_ne (hl2lt _)
  have hl1off : ctz64 (l2f (ctz64 root)) < 64 :=
    testBit_lt_of_lt (hl2lt _) hbit_w
  have hw1L1 : ctz64 root * 64 + ctz64 (l2f (ctz64 root)) < L1_SIZE := by
    rw [L1_SIZE_eq]; omega
  have hv_ne : l1f (ctz64 root * 64 + ctz64 (l2f (ctz64 root))) ≠ 0 := by
    have h := t2 _ hw1L1
    have hd : (ctz64 root * 64 + ctz64 (l2f (ctz64 root))) / 64 = ctz64 root := by omega
    have hmm : (ctz64 root * 64 + ctz64 (l2f (ctz64 root))) % 64
        = ctz64 (l2f (ctz64 root)) := by omega
    rw [hd, hmm] at h
    exact h.mp hbit_w
  have hbit_v := ctz64_testBit hv_ne (hl1lt _)
  have hbitoff : ctz64 (l1f (ctz64 root * 64 + ctz64 (l2f (ctz64 root)))) < 64 :=
    testBit_lt_of_lt (hl1lt _) hbit_v
  have hfinCAP : (ctz64 root * 64 + ctz64 (l2f (ctz64 root))) * 64
      + ctz64 (l1f (ctz64 root * 64 + ctz64 (l2f (ctz64 root)))) < CAP := by
    rw [CAP_eq]; omega
  refine ⟨hfinCAP, ?_, ?_⟩
  · have h := t1 _ hfinCAP
    have hd : ((ctz64 root * 64 + ctz64 (l2f (ctz64 root))) * 64
        + ctz64 (l1f (ctz64 root * 64 + ctz64 (l2f (ctz64 root))))) / 64
        = ctz64 root * 64 + ctz64 (l2f (ctz64 root)) := by omega
    have hmm : ((ctz64 root * 64 + ctz64 (l2f (ctz64 root))) * 64
        + ctz64 (l1f (ctz64 root * 64 + ctz64 (l2f (ctz64 root))))) % 64
        = ctz64 (l1f (ctz64 root * 64 + ctz64 (l2f (ctz64 root)))) := by omega
    rw [hd, hmm] at h
    exact h.mp hbit_v
  · intro j hj hqj
    have hj1 : (l1f (j / 64)).testBit (j % 64) = true := (t1 j hj).mpr hqj
    have hjw1 : j / 64 < L1_SIZE := div64_L1 hj
    have hj2 : (l2f (j / 64 / 64)).testBit (j / 64 % 64) = true :=
      (t2 _ hjw1).mpr (ne_zero_of_testBit hj1)
    have hjw2 : j / 64 / 64 < L2_SIZE := div64_L2 hjw1
    have hj3 := (t3 _ hjw2).mpr (ne_zero_of_testBit hj2)
    dsimp only at hj3
    have hjmm : j / 64 / 64 % 64 = j / 64 / 64 := by rw [L2_SIZE_eq] at hjw2; omega
    rw [hjmm] at hj3
    have hA : ctz64 root ≤ j / 64 / 64 := ctz64_min hne hroot64 _ hj3
    rcases Nat.lt_or_ge (ctz64 root) (j / 64 / 64) with hlt | hge
    · omega
    · have heq : j / 64 / 64 = ctz64 root := by omega
      rw [heq] at hj2
      have hB : ctz64 (l2f (ctz64 root)) ≤ j / 64 % 64 :=
        ctz64_min hw_ne (hl2lt _) _ hj2
      rcases Nat.lt_or_ge (ctz64 root * 64 + ctz64 (l2f (ctz64 root))) (j / 64)
        with hlt2 | hge2
      · omega
      · have heq2 : j / 64 = ctz64 root * 64 + ctz64 (l2f (ctz64 root)) := by omega
        rw [heq2] at hj1
        have hC := ctz64_min hv_ne (hl1lt _) _ hj1
        omega

/-- On an empty bid side the recompute resets the best to the sentinel. -/
theorem find_new_best_bid_empty (b : OrderBookImpl) (hok : BidOk b)
    (hempty : ∀ i, i < CAP → b.bid_quantities i = 0) :
    b.find_new_best_bid = { b with best_bid := i64min } := by
  unfold OrderBookImpl.find_new_best_bid
  rw [if_pos (root_bid_zero_of_empty b hok hempty)]

/-- On an empty ask side the recompute resets the best to the sentinel. -/
theorem find_new_best_ask_empty (b : OrderBookImpl) (hok : AskOk b)
    (hempty : ∀ i, i < CAP → b.ask_quantities i = 0) :
    b.find_new_best_ask = { b with best_ask := i64max } := by
  unfold OrderBookImpl.find_new_best_ask
  rw [if_pos (root_ask_zero_of_empty b hok hempty)]

/-- On a non-empty bid side the recompute lands on the greatest occupied
slot index and installs its stored price. -/
theorem find_new_best_bid_occupied (b : OrderBookImpl) (hok : BidOk b)
    {i0 : Nat} (hi0 : i0 < CAP) (hq0 : b.bid_quantities i0 ≠ 0) :
    ∃ i, i < CAP ∧ b.bid_quantities i ≠ 0 ∧
      (∀ j, j < CAP → b.bid_quantities j ≠ 0 → j ≤ i) ∧
      b.find_new_best_bid = { b with best_bid := b.bid_prices i } := by
  have hroot_ne : b.root_bid ≠ 0 :=
    ne_zero_of_testBit (bits_of_occupied_bid b hok hi0 hq0).2.2
  obtain ⟨hf1, hf2, hf3⟩ := three_level_msb b.root_bid b.bid_l2 b.bid_l1
    b.bid_quantities hok.root_lt hok.l2_lt hok.l1_lt hok.t1 hok.t2 hok.t3 hroot_ne
  refine ⟨_, hf1, hf2, hf3, ?_⟩
  unfold OrderBookImpl.find_new_best_bid
  rw [if_neg hroot_ne]

/-- On a non-empty ask side the recompute lands on the least occupied slot
index and installs its stored price. -/
theorem find_new_best_ask_occupied (b : OrderBookImpl) (hok : AskOk b)
    {i0 : Nat} (hi0 : i0 < CAP) (hq0 : b.ask_quantities i0 ≠ 0) :
    ∃ i, i < CAP ∧ b.ask_quantities i ≠ 0 ∧
      (∀ j, j < CAP → b.ask_quantities j ≠ 0 → i ≤ j) ∧
      b.find_new_best_ask = { b with best_ask := b.ask_prices i } := by
  have hroot_ne : b.root_ask ≠ 0 :=
    ne_zero_of_testBit (bits_of_occupied_ask b hok hi0 hq0).2.2
  obtain ⟨hf1, hf2, hf3⟩ := three_level_ctz b.root_ask b.ask_l2 b.ask_l1
    b.ask_quantities hok.root_lt hok.l2_lt hok.l1_lt hok.t1 hok.t2 hok.t3 hroot_ne
  refine ⟨_, hf1, hf2, hf3, ?_⟩
  unfold OrderBookImpl.find_new_best_ask
  rw [if_neg hroot_ne]

/-! Claim theorems for the unconditional invariants and algebraic laws. -/

/-- C1: after every finite sequence of `apply_update` calls starting from
`new`, on each side the L1 bit for slot `i` is set iff the quantity stored at
slot `i` is non-zero, the L2 bit for word `j` is set iff L1 word `j` is
non-zero, and the root bit for word `k` is set iff L2 word `k` is non-zero. -/
theorem bitmap_tier_consistency (us : List Update) (b : OrderBookImpl)
    (hb : b = OrderBookImpl.new.applyUpdates us) :
    (∀ i, i < CAP → ((b.bid_l1 (i / 64)).testBit (i % 64) = true ↔ b.bid_quantities i ≠ 0)) ∧
    (∀ j, j < L1_SIZE → ((b.bid_l2 (j / 64)).testBit (j % 64) = true ↔ b.bid_l1 j ≠ 0)) ∧
    (∀ k, k < L2_SIZE → (b.root_bid.testBit k = true ↔ b.bid_l2 k ≠ 0)) ∧
    (∀ i, i < CAP → ((b.ask_l1 (i / 64)).testBit (i % 64) = true ↔ b.ask_quantities i ≠ 0)) ∧
    (∀ j, j < L1_SIZE → ((b.ask_l2 (j / 64)).testBit (j % 64) = true ↔ b.ask_l1 j ≠ 0)) ∧
    (∀ k, k < L2_SIZE → (b.root_ask.testBit k = true ↔ b.ask_l2 k ≠ 0)) := by
  subst hb
  obtain ⟨hbid, hask⟩ := bookOk_run us
  refine ⟨hbid.t1, hbid.t2, ?_, hask.t1, hask.t2, ?_⟩
  · intro k hk
    have hk64 : k % 64 = k := by rw [L2_SIZE_eq] at hk; omega
    simpa [hk64] using hbid.t3 k hk
  · intro k hk
    have hk64 : k % 64 = k := by rw [L2_SIZE_eq] at hk; omega
    simpa [hk64] using hask.t3 k hk

theorem bitmap_tier_consistency_witness :
    ((OrderBookImpl.new.applyUpdates [Update.Set 10000 100 Side.Bid]).bid_l1
        (10000 / 64)).testBit (10000 % 64) = true
      ↔ (OrderBookImpl.new.applyUpdates
          [Update.Set 10000 100 Side.Bid]).bid_quantities 10000 ≠ 0 :=
  (bitmap_tier_consistency [Update.Set 10000 100 Side.Bid] _ rfl).1 10000 (by decide)

/-- C6: after every finite sequence of `apply_update` calls starting from
`new`, `get_total_quantity side` equals the sum of the quantities stored in
all slots with non-zero quantity on that side. -/
theorem aggregate_correctness (us : List Update) (b : OrderBookImpl)
    (hb : b = OrderBookImpl.new.applyUpdates us) :
    b.get_total_quantity Side.Bid
        = ∑ i ∈ (Finset.range CAP).filter (fun i => b.bid_quantities i ≠ 0),
            b.bid_quantities i ∧
    b.get_total_quantity Side.Ask
        = ∑ i ∈ (Finset.range CAP).filter (fun i => b.ask_quantities i ≠ 0),
            b.ask_quantities i := by
  subst hb
  obtain ⟨hbid, hask⟩ := bookOk_run us
  constructor
  · exact hbid.total_eq.trans (Finset.sum_filter_ne_zero _).symm
  · exact hask.total_eq.trans (Finset.sum_filter_ne_zero _).symm

theorem aggregate_correctness_witness :
    (OrderBookImpl.new.applyUpdates [Update.Set 7 3 Side.Bid]).get_total_quantity Side.Bid
      = ∑ i ∈ (Finset.range CAP).filter
          (fun i => (OrderBookImpl.new.applyUpdates [Update.Set 7 3 Side.Bid]).bid_quantities i ≠ 0),
          (OrderBookImpl.new.applyUpdates [Update.Set 7 3 Side.Bid]).bid_quantities i :=
  (aggregate_correctness [Update.Set 7 3 Side.Bid] _ rfl).1

/-- C7: applying `Set{price, quantity, side}` twice in succession with
identical arguments yields exactly the same state (hence the same best
prices, totals, quantities and bitmap tiers) as applying it once — proved
for every state, in particular every reachable one. -/
theorem set_idempotent (b : OrderBookImpl) (p : Int) (q : Nat) (s : Side) :
    (b.apply_update (Update.Set p q s)).apply_update (Update.Set p q s)
      = b.apply_update (Update.Set p q s) := by
  cases s
  · exact update_bid_idem b (maskIdx p) p q
  · exact update_ask_idem b (maskIdx p) p q

/-- C8: every `apply_update` with side `Bid` leaves all ask-side state
unchanged (`best_ask`, `total_ask_qty`, `root_ask`, `ask_l2`, `ask_l1`,
`ask_quantities`, `ask_prices`), so every ask-side read is unaffected;
symmetrically an `Ask` update leaves all bid-side state unchanged. -/
theorem side_isolation (b : OrderBookImpl) (u : Update) :
    (u.side = Side.Bid →
      (b.apply_update u).best_ask = b.best_ask ∧
      (b.apply_update u).total_ask_qty = b.total_ask_qty ∧
      (b.apply_update u).root_ask = b.root_ask ∧
      (b.apply_update u).ask_l2 = b.ask_l2 ∧
      (b.apply_update u).ask_l1 = b.ask_l1 ∧
      (b.apply_update u).ask_quantities = b.ask_quantities ∧
      (b.apply_update u).ask_prices = b.ask_prices) ∧
    (u.side = Side.Ask →
      (b.apply_update u).best_bid = b.best_bid ∧
      (b.apply_update u).total_bid_qty = b.total_bid_qty ∧
      (b.apply_update u).root_bid = b.root_bid ∧
      (b.apply_update u).bid_l2 = b.bid_l2 ∧
      (b.apply_update u).bid_l1 = b.bid_l1 ∧
      (b.apply_update u).bid_quantities = b.bid_quantities ∧
      (b.apply_update u).bid_prices = b.bid_prices) := by
  cases u with
  | Set p q s =>
    cases s
    · exact ⟨fun _ => update_bid_frame b (maskIdx p) p q, fun h => Side.noConfusion h⟩
    · exact ⟨fun h => Side.noConfusion h, fun _ => update_ask_frame b (maskIdx p) p q⟩
  | Remove p s =>
    cases s
    · exact ⟨fun _ => update_bid_frame b (maskIdx p) p 0, fun h => Side.noConfusion h⟩
    · exact ⟨fun h => Side.noConfusion h, fun _ => update_ask_frame b (maskIdx p) p 0⟩

theorem side_isolation_witness :
    (OrderBookImpl.new.apply_update (Update.Set 5 1 Side.Bid)).best_ask
        = OrderBookImpl.new.best_ask ∧
    (OrderBookImpl.new.apply_update (Update.Set 5 1 Side.Bid)).total_ask_qty
        = OrderBookImpl.new.total_ask_qty ∧
    (OrderBookImpl.new.apply_update (Update.Set 5 1 Side.Bid)).root_ask
        = OrderBookImpl.new.root_ask ∧
    (OrderBookImpl.new.apply_update (Update.Set 5 1 Side.Bid)).ask_l2
        = OrderBookImpl.new.ask_l2 ∧
    (OrderBookImpl.new.apply_update (Update.Set 5 1 Side.Bid)).ask_l1
        = OrderBookImpl.new.ask_l1 ∧
    (OrderBookImpl.new.apply_update (Update.Set 5 1 Side.Bid)).ask_quantities
        = OrderBookImpl.new.ask_quantities ∧
    (OrderBookImpl.new.apply_update (Update.Set 5 1 Side.Bid)).ask_prices
        = OrderBookImpl.new.ask_prices :=
  (side_isolation OrderBookImpl.new (Update.Set 5 1 Side.Bid)).1 rfl

/-- C10: `get_quantity_at` depends only on the masked slot index
`price & 65535`: two prices with equal masked index always give equal
lookup results, on every book state. -/
theorem masked_lookup_congruence (b : OrderBookImpl) (p1 p2 : Int) (s : Side)
    (h : maskIdx p1 = maskIdx p2) :
    b.get_quantity_at p1 s = b.get_quantity_at p2 s := by
  cases s <;> simp [OrderBookImpl.get_quantity_at, h]

theorem masked_lookup_congruence_witness :
    maskIdx 5 = maskIdx 65541 ∧
      OrderBookImpl.new.get_quantity_at 5 Side.Bid
        = OrderBookImpl.new.get_quantity_at 65541 Side.Bid :=
  ⟨by decide, masked_lookup_congruence OrderBookImpl.new 5 65541 Side.Bid (by decide)⟩

/-- C9: for every quantity `q > 0`, `Set{i64::MIN, q, Bid}` on a fresh book
leaves `get_best_bid() = None` and `get_spread() = None` even though
`get_quantity_at(i64::MIN, Bid) = Some q`; symmetrically
`Set{i64::MAX, q, Ask}` leaves `get_best_ask() = None`: the empty-side
sentinels coincide with these genuine extreme prices. -/
theorem sentinel_price_collision (q : Nat) (hq : 0 < q) :
    (OrderBookImpl.new.apply_update (Update.Set i64min q Side.Bid)).get_best_bid = none ∧
    (OrderBookImpl.new.apply_update (Update.Set i64min q Side.Bid)).get_spread = none ∧
    (OrderBookImpl.new.apply_update (Update.Set i64min q Side.Bid)).get_quantity_at
        i64min Side.Bid = some q ∧
    (OrderBookImpl.new.apply_update (Update.Set i64max q Side.Ask)).get_best_ask = none := by
  have hq' : ¬ q = 0 := by omega
  have emin : maskIdx i64min = 0 := by decide
  have emax : maskIdx i64max = 65535 := by decide
  simp only [OrderBookImpl.apply_update, emin, emax]
  simp [OrderBookImpl.update_bid, OrderBookImpl.update_ask, OrderBookImpl.new,
    OrderBookImpl.get_best_bid, OrderBookImpl.get_best_ask, OrderBookImpl.get_spread,
    OrderBookImpl.get_quantity_at, hq', emin, emax, hq]

theorem sentinel_price_collision_witness :
    (OrderBookImpl.new.apply_update (Update.Set i64min 5 Side.Bid)).get_best_bid = none ∧
    (OrderBookImpl.new.apply_update (Update.Set i64min 5 Side.Bid)).get_spread = none ∧
    (OrderBookImpl.new.apply_update (Update.Set i64min 5 Side.Bid)).get_quantity_at
        i64min Side.Bid = some 5 ∧
    (OrderBookImpl.new.apply_update (Update.Set i64max 5 Side.Ask)).get_best_ask = none :=
  sentinel_price_collision 5 (by decide)

/-! Characterization of the cached best price across the update paths. -/


theorem update_bid_best_insert (b : OrderBookImpl) (p : Int) (q : Nat) (hq : q ≠ 0) :
    (b.update_bid (maskIdx p) p q).best_bid
      = if b.best_bid < p then p else b.best_bid := by
  simp only [OrderBookImpl.update_bid]
  rw [if_neg hq]
  split_ifs with h1 h2 h3 h4 h5 <;> rfl

theorem update_bid_best_noop (b : OrderBookImpl) (p : Int)
    (hold : b.bid_quantities (maskIdx p) = 0) :
    (b.update_bid (maskIdx p) p 0).best_bid = b.best_bid := by
  simp only [OrderBookImpl.update_bid]
  split_ifs with h1 h2 h3 h4 h5 <;>
    first
      | rfl
      | exact absurd trivial h1
      | exact absurd hold (by omega)

theorem update_bid_best_remove_nonbest (b : OrderBookImpl) (p : Int)
    (hold : b.bid_quantities (maskIdx p) ≠ 0) (hne : p ≠ b.best_bid) :
    (b.update_bid (maskIdx p) p 0).best_bid = b.best_bid := by
  simp only [OrderBookImpl.update_bid]
  split_ifs with h1 h2 h3 h4 h5 <;>
    first
      | rfl
      | exact absurd trivial h1
      | exact absurd h3 hne
      | exact absurd (by omega) hold

theorem recompute_best_spec_bid (b' : OrderBookImpl) (hok' : BidOk b')
    (qty0 : Nat → Nat) (pr0 : Nat → Int) (i : Nat) (p : Int)
    (hq : b'.bid_quantities = fun j => if j = i then 0 else qty0 j)
    (hp : b'.bid_prices = fun j => if j = i then p else pr0 j) :
    ((∀ j, j < CAP → j ≠ i → qty0 j = 0) →
        b'.find_new_best_bid.best_bid = i64min) ∧
    (∀ j0, j0 < CAP → j0 ≠ i → qty0 j0 ≠ 0 →
        ∃ k, k < CAP ∧ k ≠ i ∧ qty0 k ≠ 0 ∧
          b'.find_new_best_bid.best_bid = pr0 k ∧
          ∀ j, j < CAP → j ≠ i → qty0 j ≠ 0 → j ≤ k) := by
  constructor
  · intro hempty
    have hemp' : ∀ j, j < CAP → b'.bid_quantities j = 0 := by
      intro j hj
      rw [hq]
      by_cases hji : j = i
      · simp [hji]
      · simp only [if_neg hji]
        exact hempty j hj hji
    rw [find_new_best_bid_empty b' hok' hemp']
  · intro j0 hj0 hne0 hq0
    have hq0' : b'.bid_quantities j0 ≠ 0 := by
      rw [hq]
      simpa [hne0] using hq0
    obtain ⟨k, hk, hkq, hkmax, hkfind⟩ :=
      find_new_best_bid_occupied b' hok' hj0 hq0'
    have hki : k ≠ i := by
      intro hcontra
      rw [hq] at hkq
      simp [hcontra] at hkq
    have hkq0 : qty0 k ≠ 0 := by
      rw [hq] at hkq
      simpa [hki] using hkq
    refine ⟨k, hk, hki, hkq0, ?_, ?_⟩
    · rw [hkfind]
      show b'.bid_prices k = pr0 k
      rw [hp]
      simp [hki]
    · intro j hj hjne hjq
      refine hkmax j hj ?_
      rw [hq]
      simpa [hjne] using hjq

theorem update_bid_best_remove_best (b : OrderBookImpl) (hok : BidOk b) (p : Int)
    (hold : b.bid_quantities (maskIdx p) ≠ 0) (heq : p = b.best_bid) :
    ((∀ j, j < CAP → j ≠ maskIdx p → b.bid_quantities j = 0) →
        (b.update_bid (maskIdx p) p 0).best_bid = i64min) ∧
    (∀ j0, j0 < CAP → j0 ≠ maskIdx p → b.bid_quantities j0 ≠ 0 →
        ∃ k, k < CAP ∧ k ≠ maskIdx p ∧ b.bid_quantities k ≠ 0 ∧
          (b.update_bid (maskIdx p) p 0).best_bid = b.bid_prices k ∧
          ∀ j, j < CAP → j ≠ maskIdx p → b.bid_quantities j ≠ 0 → j ≤ k) := by
  simp only [OrderBookImpl.update_bid]
  split_ifs with h1 h2 h3 h4
  all_goals (first
    | exact absurd trivial h1
    | exact absurd (by omega) hold
    | exact absurd heq h3
    | skip)
  · rw [h3, h4]
    refine recompute_best_spec_bid _ ?_ _ _ _ _ rfl rfl
    exact sideOk_remove_l2zero hok p (by omega) h3 h4
  · rw [h3]
    refine recompute_best_spec_bid _ ?_ _ _ _ _ rfl rfl
    exact sideOk_remove_l1zero hok p (by omega) h3 h4
  · refine recompute_best_spec_bid _ ?_ _ _ _ _ rfl rfl
    exact sideOk_remove_keep hok p (by omega) h3


theorem update_ask_best_insert (b : OrderBookImpl) (p : Int) (q : Nat) (hq : q ≠ 0) :
    (b.update_ask (maskIdx p) p q).best_ask
      = if p < b.best_ask then p else b.best_ask := by
  simp only [OrderBookImpl.update_ask]
  rw [if_neg hq]
  split_ifs with h1 h2 h3 h4 h5 <;> rfl

theorem update_ask_best_noop (b : OrderBookImpl) (p : Int)
    (hold : b.ask_quantities (maskIdx p) = 0) :
    (b.update_ask (maskIdx p) p 0).best_ask = b.best_ask := by
  simp only [OrderBookImpl.update_ask]
  split_ifs with h1 h2 h3 h4 h5 <;>
    first
      | rfl
      | exact absurd trivial h1
      | exact absurd hold (by omega)

theorem update_ask_best_remove_nonbest (b : OrderBookImpl) (p : Int)
    (hold : b.ask_quantities (maskIdx p) ≠ 0) (hne : p ≠ b.best_ask) :
    (b.update_ask (maskIdx p) p 0).best_ask = b.best_ask := by
  simp only [OrderBookImpl.update_ask]
  split_ifs with h1 h2 h3 h4 h5 <;>
    first
      | rfl
      | exact absurd trivial h1
      | exact absurd h3 hne
      | exact absurd (by omega) hold

theorem recompute_best_spec_ask (b' : OrderBookImpl) (hok' : AskOk b')
    (qty0 : Nat → Nat) (pr0 : Nat → Int) (i : Nat) (p : Int)
    (hq : b'.ask_quantities = fun j => if j = i then 0 else qty0 j)
    (hp : b'.ask_prices = fun j => if j = i then p else pr0 j) :
    ((∀ j, j < CAP → j ≠ i → qty0 j = 0) →
        b'.find_new_best_ask.best_ask = i64max) ∧
    (∀ j0, j0 < CAP → j0 ≠ i → qty0 j0 ≠ 0 →
        ∃ k, k < CAP ∧ k ≠ i ∧ qty0 k ≠ 0 ∧
          b'.find_new_best_ask.best_ask = pr0 k ∧
          ∀ j, j < CAP → j ≠ i → qty0 j ≠ 0 → k ≤ j) := by
  constructor
  · intro hempty
    have hemp' : ∀ j, j < CAP → b'.ask_quantities j = 0 := by
      intro j hj
      rw [hq]
      by_cases hji : j = i
      · simp [hji]
      · simp only [if_neg hji]
        exact hempty j hj hji
    rw [find_new_best_ask_empty b' hok' hemp']
  · intro j0 hj0 hne0 hq0
    have hq0' : b'.ask_quantities j0 ≠ 0 := by
      rw [hq]
      simpa [hne0] using hq0
    obtain ⟨k, hk, hkq, hkmax, hkfind⟩ :=
      find_new_best_ask_occupied b' hok' hj0 hq0'
    have hki : k ≠ i := by
      intro hcontra
      rw [hq] at hkq
      simp [hcontra] at hkq
    have hkq0 : qty0 k ≠ 0 := by
      rw [hq] at hkq
      simpa [hki] using hkq
    refine ⟨k, hk, hki, hkq0, ?_, ?_⟩
    · rw [hkfind]
      show b'.ask_prices k = pr0 k
      rw [hp]
      simp [hki]
    · intro j hj hjne hjq
      refine hkmax j hj ?_
      rw [hq]
      simpa [hjne] using hjq

theorem update_ask_best_remove_best (b : OrderBookImpl) (hok : AskOk b) (p : Int)
    (hold : b.ask_quantities (maskIdx p) ≠ 0) (heq : p = b.best_ask) :
    ((∀ j, j < CAP → j ≠ maskIdx p → b.ask_quantities j = 0) →
        (b.update_ask (maskIdx p) p 0).best_ask = i64max) ∧
    (∀ j0, j0 < CAP → j0 ≠ maskIdx p → b.ask_quantities j0 ≠ 0 →
        ∃ k, k < CAP ∧ k ≠ maskIdx p ∧ b.ask_quantities k ≠ 0 ∧
          (b.update_ask (maskIdx p) p 0).best_ask = b.ask_prices k ∧
          ∀ j, j < CAP → j ≠ maskIdx p → b.ask_quantities j ≠ 0 → k ≤ j) := by
  simp only [OrderBookImpl.update_ask]
  split_ifs with h1 h2 h3 h4
  all_goals (first
    | exact absurd trivial h1
    | exact absurd (by omega) hold
    | exact absurd heq h3
    | skip)
  · rw [h3, h4]
    refine recompute_best_spec_ask _ ?_ _ _ _ _ rfl rfl
    exact sideOk_remove_l2zero hok p (by omega) h3 h4
  · rw [h3]
    refine recompute_best_spec_ask _ ?_ _ _ _ _ rfl rfl
    exact sideOk_remove_l1zero hok p (by omega) h3 h4
  · refine recompute_best_spec_ask _ ?_ _ _ _ _ rfl rfl
    exact sideOk_remove_keep hok p (by omega) h3

/-! Best-price correctness under a no-alias, order-compatible price discipline. -/


/-- Good bid side relative to a price discipline `P`: all stored occupied
prices satisfy `P`, and the cached best is the maximum stored occupied price
(sentinel when empty). -/
def GoodBid (P : Int → Prop) (b : OrderBookImpl) : Prop :=
  (∀ i, i < CAP → b.bid_quantities i ≠ 0 → P (b.bid_prices i)) ∧
  (((∀ i, i < CAP → b.bid_quantities i = 0) ∧ b.best_bid = i64min) ∨
   (∃ i, i < CAP ∧ b.bid_quantities i ≠ 0 ∧ b.best_bid = b.bid_prices i ∧
      ∀ j, j < CAP → b.bid_quantities j ≠ 0 → b.bid_prices j ≤ b.bid_prices i))

/-- Good ask side: mirror image with minimum and the `i64max` sentinel. -/
def GoodAsk (P : Int → Prop) (b : OrderBookImpl) : Prop :=
  (∀ i, i < CAP → b.ask_quantities i ≠ 0 → P (b.ask_prices i)) ∧
  (((∀ i, i < CAP → b.ask_quantities i = 0) ∧ b.best_ask = i64max) ∨
   (∃ i, i < CAP ∧ b.ask_quantities i ≠ 0 ∧ b.best_ask = b.ask_prices i ∧
      ∀ j, j < CAP → b.ask_quantities j ≠ 0 → b.ask_prices i ≤ b.ask_prices j))

/-- Under an order-compatible price discipline, writing a price onto an
occupied slot can only mean rewriting the price already stored there. -/
theorem stored_eq_of_same_slot_bid (b : OrderBookImpl) (hok : BidOk b)
    (P : Int → Prop)
    (hP : ∀ i, i < CAP → b.bid_quantities i ≠ 0 → P (b.bid_prices i))
    (hPo : ∀ x y, P x → P y → x < y → maskIdx x < maskIdx y)
    {p : Int} (hp : P p) (hqi : b.bid_quantities (maskIdx p) ≠ 0) :
    b.bid_prices (maskIdx p) = p := by
  have hmask := hok.masked (maskIdx p) (maskIdx_lt p) hqi
  have hPi := hP _ (maskIdx_lt p) hqi
  rcases lt_trichotomy (b.bid_prices (maskIdx p)) p with h | h | h
  · have := hPo _ _ hPi hp h
    omega
  · exact h
  · have := hPo _ _ hp hPi h
    omega

/-- Stored occupied bid prices are strictly monotone in the slot index under
an order-compatible price discipline. -/
theorem prices_mono_bid (b : OrderBookImpl) (hok : BidOk b) (P : Int → Prop)
    (hP : ∀ i, i < CAP → b.bid_quantities i ≠ 0 → P (b.bid_prices i))
    (hPo : ∀ x y, P x → P y → x < y → maskIdx x < maskIdx y) :
    ∀ i j, i < CAP → j < CAP → b.bid_quantities i ≠ 0 → b.bid_quantities j ≠ 0 →
      i < j → b.bid_prices i < b.bid_prices j := by
  intro i j hi hj hqi hqj hij
  have mi := hok.masked i hi hqi
  have mj := hok.masked j hj hqj
  rcases lt_trichotomy (b.bid_prices i) (b.bid_prices j) with h | h | h
  · exact h
  · rw [h] at mi
    omega
  · have := hPo _ _ (hP j hj hqj) (hP i hi hqi) h
    omega

theorem goodBid_update (b : OrderBookImpl) (hok : BidOk b) (P : Int → Prop)
    (hPb : ∀ x, P x → i64min < x)
    (hPo : ∀ x y, P x → P y → x < y → maskIdx x < maskIdx y)
    (hg : GoodBid P b) (p : Int) (q : Nat) (hp : P p) :
    GoodBid P (b.update_bid (maskIdx p) p q) := by
  obtain ⟨hP, hbest⟩ := hg
  have hi := maskIdx_lt p
  have hq1 : (b.update_bid (maskIdx p) p q).bid_quantities (maskIdx p) = q := by
    rw [(update_bid_qty_prices b (maskIdx p) p q).1]
    simp
  have hq2 : ∀ j, j ≠ maskIdx p →
      (b.update_bid (maskIdx p) p q).bid_quantities j = b.bid_quantities j := by
    intro j hj
    rw [(update_bid_qty_prices b (maskIdx p) p q).1]
    simp [hj]
  have hp1 : (b.update_bid (maskIdx p) p q).bid_prices (maskIdx p) = p := by
    rw [(update_bid_qty_prices b (maskIdx p) p q).2]
    simp
  have hp2 : ∀ j, j ≠ maskIdx p →
      (b.update_bid (maskIdx p) p q).bid_prices j = b.bid_prices j := by
    intro j hj
    rw [(update_bid_qty_prices b (maskIdx p) p q).2]
    simp [hj]
  constructor
  · intro i' hi' hq'
    by_cases hii : i' = maskIdx p
    · rw [hii, hp1]
      exact hp
    · rw [hp2 i' hii]
      rw [hq2 i' hii] at hq'
      exact hP i' hi' hq'
  · by_cases hq : q = 0
    · subst hq
      by_cases hold : b.bid_quantities (maskIdx p) = 0
      · have hbesteq := update_bid_best_noop b p hold
        rcases hbest with ⟨hemp, hsent⟩ | ⟨i, hiC, hqi, hbeq, hmax⟩
        · left
          refine ⟨?_, by rw [hbesteq]; exact hsent⟩
          intro j hj
          by_cases hji : j = maskIdx p
          · rw [hji, hq1]
          · rw [hq2 j hji]
            exact hemp j hj
        · right
          have hine : i ≠ maskIdx p := fun hc => hqi (hc ▸ hold)
          refine ⟨i, hiC, ?_, ?_, ?_⟩
          · rw [hq2 i hine]
            exact hqi
          · rw [hbesteq, hp2 i hine]
            exact hbeq
          · intro j hj hqj
            by_cases hji : j = maskIdx p
            · rw [hji, hq1] at hqj
              exact absurd rfl hqj
            · rw [hq2 j hji] at hqj
              rw [hp2 j hji, hp2 i hine]
              exact hmax j hj hqj
      · have hpeq : b.bid_prices (maskIdx p) = p :=
          stored_eq_of_same_slot_bid b hok P hP hPo hp hold
        by_cases hpb : p = b.best_bid
        · obtain ⟨hEmpty, hOcc⟩ := update_bid_best_remove_best b hok p hold hpb
          by_cases hrest : ∀ j, j < CAP → j ≠ maskIdx p → b.bid_quantities j = 0
          · left
            refine ⟨?_, hEmpty hrest⟩
            intro j hj
            by_cases hji : j = maskIdx p
            · rw [hji, hq1]
            · rw [hq2 j hji]
              exact hrest j hj hji
          · push_neg at hrest
            obtain ⟨j0, hj0, hj0ne, hj0q⟩ := hrest
            obtain ⟨k, hkC, hkne, hkq, hkbest, hkmax⟩ := hOcc j0 hj0 hj0ne hj0q
            right
            refine ⟨k, hkC, ?_, ?_, ?_⟩
            · rw [hq2 k hkne]
              exact hkq
            · rw [hkbest, hp2 k hkne]
            · intro j hj hqj
              by_cases hji : j = maskIdx p
              · rw [hji, hq1] at hqj
                exact absurd rfl hqj
              · rw [hq2 j hji] at hqj
                rw [hp2 j hji, hp2 k hkne]
                have hjk := hkmax j hj hji hqj
                rcases eq_or_lt_of_le hjk with he | hlt
                · rw [he]
                · exact le_of_lt (prices_mono_bid b hok P hP hPo j k hj hkC hqj hkq hlt)
        · have hbesteq := update_bid_best_remove_nonbest b p hold hpb
          rcases hbest with ⟨hemp, _⟩ | ⟨i, hiC, hqi, hbeq, hmax⟩
          · exact absurd (hemp _ hi) hold
          · have hine : i ≠ maskIdx p := by
              intro hcontra
              rw [hcontra, hpeq] at hbeq
              exact hpb hbeq.symm
            right
            refine ⟨i, hiC, ?_, ?_, ?_⟩
            · rw [hq2 i hine]
              exact hqi
            · rw [hbesteq, hp2 i hine]
              exact hbeq
            · intro j hj hqj
              by_cases hji : j = maskIdx p
              · rw [hji, hq1] at hqj
                exact absurd rfl hqj
              · rw [hq2 j hji] at hqj
                rw [hp2 j hji, hp2 i hine]
                exact hmax j hj hqj
    · have hbesteq := update_bid_best_insert b p q hq
      right
      rcases hbest with ⟨hemp, hsent⟩ | ⟨i, hiC, hqi, hbeq, hmax⟩
      · have hlt : b.best_bid < p := by
          rw [hsent]
          exact hPb p hp
        refine ⟨maskIdx p, hi, ?_, ?_, ?_⟩
        · rw [hq1]
          exact hq
        · rw [hbesteq, if_pos hlt, hp1]
        · intro j hj hqj
          by_cases hji : j = maskIdx p
          · rw [hji]
          · rw [hq2 j hji] at hqj
            exact absurd (hemp j hj) hqj
      · by_cases hlt : b.best_bid < p
        · refine ⟨maskIdx p, hi, ?_, ?_, ?_⟩
          · rw [hq1]
            exact hq
          · rw [hbesteq, if_pos hlt, hp1]
          · intro j hj hqj
            by_cases hji : j = maskIdx p
            · rw [hji]
            · rw [hq2 j hji] at hqj
              rw [hp2 j hji, hp1]
              have hle := hmax j hj hqj
              omega
        · by_cases hii : i = maskIdx p
          · have hold' : b.bid_quantities (maskIdx p) ≠ 0 := hii ▸ hqi
            have hpeq : b.bid_prices (maskIdx p) = p :=
              stored_eq_of_same_slot_bid b hok P hP hPo hp hold'
            refine ⟨maskIdx p, hi, ?_, ?_, ?_⟩
            · rw [hq1]
              exact hq
            · rw [hbesteq, if_neg hlt, hp1, hbeq, hii, hpeq]
            · intro j hj hqj
              by_cases hji : j = maskIdx p
              · rw [hji]
              · rw [hq2 j hji] at hqj
                rw [hp2 j hji, hp1]
                have hle := hmax j hj hqj
                rw [hii, hpeq] at hle
                exact hle
          · refine ⟨i, hiC, ?_, ?_, ?_⟩
            · rw [hq2 i hii]
              exact hqi
            · rw [hbesteq, if_neg hlt, hp2 i hii]
              exact hbeq
            · intro j hj hqj
              by_cases hji : j = maskIdx p
              · rw [hji, hp1, hp2 i hii]
                have : p ≤ b.best_bid := not_lt.1 hlt
                omega
              · rw [hq2 j hji] at hqj
                rw [hp2 j hji, hp2 i hii]
                exact hmax j hj hqj

/-- Under an order-compatible price discipline, writing a price onto an
occupied slot can only mean rewriting the price already stored there. -/
theorem stored_eq_of_same_slot_ask (b : OrderBookImpl) (hok : AskOk b)
    (P : Int → Prop)
    (hP : ∀ i, i < CAP → b.ask_quantities i ≠ 0 → P (b.ask_prices i))
    (hPo : ∀ x y, P x → P y → x < y → maskIdx x < maskIdx y)
    {p : Int} (hp : P p) (hqi : b.ask_quantities (maskIdx p) ≠ 0) :
    b.ask_prices (maskIdx p) = p := by
  have hmask := hok.masked (maskIdx p) (maskIdx_lt p) hqi
  have hPi := hP _ (maskIdx_lt p) hqi
  rcases lt_trichotomy (b.ask_prices (maskIdx p)) p with h | h | h
  · have := hPo _ _ hPi hp h
    omega
  · exact h
  · have := hPo _ _ hp hPi h
    omega

/-- Stored occupied bid prices are strictly monotone in the slot index under
an order-compatible price discipline. -/
theorem prices_mono_ask (b : OrderBookImpl) (hok : AskOk b) (P : Int → Prop)
    (hP : ∀ i, i < CAP → b.ask_quantities i ≠ 0 → P (b.ask_prices i))
    (hPo : ∀ x y, P x → P y → x < y → maskIdx x < maskIdx y) :
    ∀ i j, i < CAP → j < CAP → b.ask_quantities i ≠ 0 → b.ask_quantities j ≠ 0 →
      i < j → b.ask_prices i < b.ask_prices j := by
  intro i j hi hj hqi hqj hij
  have mi := hok.masked i hi hqi
  have mj := hok.masked j hj hqj
  rcases lt_trichotomy (b.ask_prices i) (b.ask_prices j) with h | h | h
  · exact h
  · rw [h] at mi
    omega
  · have := hPo _ _ (hP j hj hqj) (hP i hi hqi) h
    omega

theorem goodAsk_update (b : OrderBookImpl) (hok : AskOk b) (P : Int → Prop)
    (hPa : ∀ x, P x → x < i64max)
    (hPo : ∀ x y, P x → P y → x < y → maskIdx x < maskIdx y)
    (hg : GoodAsk P b) (p : Int) (q : Nat) (hp : P p) :
    GoodAsk P (b.update_ask (maskIdx p) p q) := by
  obtain ⟨hP, hbest⟩ := hg
  have hi := maskIdx_lt p
  have hq1 : (b.update_ask (maskIdx p) p q).ask_quantities (maskIdx p) = q := by
    rw [(update_ask_qty_prices b (maskIdx p) p q).1]
    simp
  have hq2 : ∀ j, j ≠ maskIdx p →
      (b.update_ask (maskIdx p) p q).ask_quantities j = b.ask_quantities j := by
    intro j hj
    rw [(update_ask_qty_prices b (maskIdx p) p q).1]
    simp [hj]
  have hp1 : (b.update_ask (maskIdx p) p q).ask_prices (maskIdx p) = p := by
    rw [(update_ask_qty_prices b (maskIdx p) p q).2]
    simp
  have hp2 : ∀ j, j ≠ maskIdx p →
      (b.update_ask (maskIdx p) p q).ask_prices j = b.ask_prices j := by
    intro j hj
    rw [(update_ask_qty_prices b (maskIdx p) p q).2]
    simp [hj]
  constructor
  · intro i' hi' hq'
    by_cases hii : i' = maskIdx p
    · rw [hii, hp1]
      exact hp
    · rw [hp2 i' hii]
      rw [hq2 i' hii] at hq'
      exact hP i' hi' hq'
  · by_cases hq : q = 0
    · subst hq
      by_cases hold : b.ask_quantities (maskIdx p) = 0
      · have hbesteq := update_ask_best_noop b p hold
        rcases hbest with ⟨hemp, hsent⟩ | ⟨i, hiC, hqi, hbeq, hmax⟩
        · left
          refine ⟨?_, by rw [hbesteq]; exact hsent⟩
          intro j hj
          by_cases hji : j = maskIdx p
          · rw [hji, hq1]
          · rw [hq2 j hji]
            exact hemp j hj
        · right
          have hine : i ≠ maskIdx p := fun hc => hqi (hc ▸ hold)
          refine ⟨i, hiC, ?_, ?_, ?_⟩
          · rw [hq2 i hine]
            exact hqi
          · rw [hbesteq, hp2 i hine]
            exact hbeq
          · intro j hj hqj
            by_cases hji : j = maskIdx p
            · rw [hji, hq1] at hqj
              exact absurd rfl hqj
            · rw [hq2 j hji] at hqj
              rw [hp2 j hji, hp2 i hine]
              exact hmax j hj hqj
      · have hpeq : b.ask_prices (maskIdx p) = p :=
          stored_eq_of_same_slot_ask b hok P hP hPo hp hold
        by_cases hpb : p = b.best_ask
        · obtain ⟨hEmpty, hOcc⟩ := update_ask_best_remove_best b hok p hold hpb
          by_cases hrest : ∀ j, j < CAP → j ≠ maskIdx p → b.ask_quantities j = 0
          · left
            refine ⟨?_, hEmpty hrest⟩
            intro j hj
            by_cases hji : j = maskIdx p
            · rw [hji, hq1]
            · rw [hq2 j hji]
              exact hrest j hj hji
          · push_neg at hrest
            obtain ⟨j0, hj0, hj0ne, hj0q⟩ := hrest
            obtain ⟨k, hkC, hkne, hkq, hkbest, hkmax⟩ := hOcc j0 hj0 hj0ne hj0q
            right
            refine ⟨k, hkC, ?_, ?_, ?_⟩
            · rw [hq2 k hkne]
              exact hkq
            · rw [hkbest, hp2 k hkne]
            · intro j hj hqj
              by_cases hji : j = maskIdx p
              · rw [hji, hq1] at hqj
                exact absurd rfl hqj
              · rw [hq2 j hji] at hqj
                rw [hp2 j hji, hp2 k hkne]
                have hjk := hkmax j hj hji hqj
                rcases eq_or_lt_of_le hjk with he | hlt
                · rw [he]
                · exact le_of_lt (prices_mono_ask b hok P hP hPo k j hkC hj hkq hqj hlt)
        · have hbesteq := update_ask_best_remove_nonbest b p hold hpb
          rcases hbest with ⟨hemp, _⟩ | ⟨i, hiC, hqi, hbeq, hmax⟩
          · exact absurd (hemp _ hi) hold
          · have hine : i ≠ maskIdx p := by
              intro hcontra
              rw [hcontra, hpeq] at hbeq
              exact hpb hbeq.symm
            right
            refine ⟨i, hiC, ?_, ?_, ?_⟩
            · rw [hq2 i hine]
              exact hqi
            · rw [hbesteq, hp2 i hine]
              exact hbeq
            · intro j hj hqj
              by_cases hji : j = maskIdx p
              · rw [hji, hq1] at hqj
                exact absurd rfl hqj
              · rw [hq2 j hji] at hqj
                rw [hp2 j hji, hp2 i hine]
                exact hmax j hj hqj
    · have hbesteq := update_ask_best_insert b p q hq
      right
      rcases hbest with ⟨hemp, hsent⟩ | ⟨i, hiC, hqi, hbeq, hmax⟩
      · have hlt : p < b.best_ask := by
          rw [hsent]
          exact hPa p hp
        refine ⟨maskIdx p, hi, ?_, ?_, ?_⟩
        · rw [hq1]
          exact hq
        · rw [hbesteq, if_pos hlt, hp1]
        · intro j hj hqj
          by_cases hji : j = maskIdx p
          · rw [hji]
          · rw [hq2 j hji] at hqj
            exact absurd (hemp j hj) hqj
      · by_cases hlt : p < b.best_ask
        · refine ⟨maskIdx p, hi, ?_, ?_, ?_⟩
          · rw [hq1]
            exact hq
          · rw [hbesteq, if_pos hlt, hp1]
          · intro j hj hqj
            by_cases hji : j = maskIdx p
            · rw [hji]
            · rw [hq2 j hji] at hqj
              rw [hp2 j hji, hp1]
              have hle := hmax j hj hqj
              omega
        · by_cases hii : i = maskIdx p
          · have hold' : b.ask_quantities (maskIdx p) ≠ 0 := hii ▸ hqi
            have hpeq : b.ask_prices (maskIdx p) = p :=
              stored_eq_of_same_slot_ask b hok P hP hPo hp hold'
            refine ⟨maskIdx p, hi, ?_, ?_, ?_⟩
            · rw [hq1]
              exact hq
            · rw [hbesteq, if_neg hlt, hp1, hbeq, hii, hpeq]
            · intro j hj hqj
              by_cases hji : j = maskIdx p
              · rw [hji]
              · rw [hq2 j hji] at hqj
                rw [hp2 j hji, hp1]
                have hle := hmax j hj hqj
                rw [hii, hpeq] at hle
                exact hle
          · refine ⟨i, hiC, ?_, ?_, ?_⟩
            · rw [hq2 i hii]
              exact hqi
            · rw [hbesteq, if_neg hlt, hp2 i hii]
              exact hbeq
            · intro j hj hqj
              by_cases hji : j = maskIdx p
              · rw [hji, hp1, hp2 i hii]
                have : b.best_ask ≤ p := not_lt.1 hlt
                omega
              · rw [hq2 j hji] at hqj
                rw [hp2 j hji, hp2 i hii]
                exact hmax j hj hqj


/-- The caller discipline under which best-price correctness holds: every
price in the trace lies strictly between the sentinels, and on each side the
masked-index order of the prices used agrees with their numeric order (in
particular two distinct prices on one side never share a masked index). -/
def traceOK (us : List Update) : Prop :=
  (∀ u ∈ us, i64min < u.price ∧ u.price < i64max) ∧
  (∀ u ∈ us, ∀ v ∈ us, u.side = v.side → u.price < v.price →
      maskIdx u.price < maskIdx v.price)

/-- Prices used by a trace on a given side. -/
def sideP (us : List Update) (s : Side) (x : Int) : Prop :=
  ∃ u ∈ us, u.side = s ∧ u.price = x

theorem goodBid_of_frame (b b' : OrderBookImpl) (P : Int → Prop)
    (h1 : b'.best_bid = b.best_bid) (h2 : b'.bid_quantities = b.bid_quantities)
    (h3 : b'.bid_prices = b.bid_prices) (hg : GoodBid P b) : GoodBid P b' := by
  unfold GoodBid at *
  rw [h1, h2, h3]
  exact hg

theorem goodAsk_of_frame (b b' : OrderBookImpl) (P : Int → Prop)
    (h1 : b'.best_ask = b.best_ask) (h2 : b'.ask_quantities = b.ask_quantities)
    (h3 : b'.ask_prices = b.ask_prices) (hg : GoodAsk P b) : GoodAsk P b' := by
  unfold GoodAsk at *
  rw [h1, h2, h3]
  exact hg

theorem goodBid_mono (P P' : Int → Prop) (hPP : ∀ x, P x → P' x)
    (b : OrderBookImpl) (hg : GoodBid P b) : GoodBid P' b :=
  ⟨fun i hi hq => hPP _ (hg.1 i hi hq), hg.2⟩

theorem goodAsk_mono (P P' : Int → Prop) (hPP : ∀ x, P x → P' x)
    (b : OrderBookImpl) (hg : GoodAsk P b) : GoodAsk P' b :=
  ⟨fun i hi hq => hPP _ (hg.1 i hi hq), hg.2⟩

/-- Along any trace obeying the discipline, both cached bests equal the
extreme stored occupied price of their side. -/
theorem goodRun (us : List Update) (h : traceOK us) :
    GoodBid (sideP us Side.Bid) (OrderBookImpl.new.applyUpdates us) ∧
    GoodAsk (sideP us Side.Ask) (OrderBookImpl.new.applyUpdates us) := by
  induction us using List.reverseRecOn with
  | nil =>
    exact ⟨⟨fun i hi hq => absurd rfl hq, Or.inl ⟨fun i hi => rfl, rfl⟩⟩,
           ⟨fun i hi hq => absurd rfl hq, Or.inl ⟨fun i hi => rfl, rfl⟩⟩⟩
  | append_singleton us u ih =>
    have hOK : traceOK us :=
      ⟨fun v hv => h.1 v (List.mem_append_left _ hv),
       fun v hv w hw hs hlt =>
         h.2 v (List.mem_append_left _ hv) w (List.mem_append_left _ hw) hs hlt⟩
    obtain ⟨ihB, ihA⟩ := ih hOK
    have hmemu : u ∈ us ++ [u] := List.mem_append_right _ (List.mem_singleton_self u)
    have hmonoB : ∀ x, sideP us Side.Bid x → sideP (us ++ [u]) Side.Bid x := by
      rintro x ⟨v, hv, hs, hx⟩
      exact ⟨v, List.mem_append_left _ hv, hs, hx⟩
    have hmonoA : ∀ x, sideP us Side.Ask x → sideP (us ++ [u]) Side.Ask x := by
      rintro x ⟨v, hv, hs, hx⟩
      exact ⟨v, List.mem_append_left _ hv, hs, hx⟩
    have ihB' := goodBid_mono _ _ hmonoB _ ihB
    have ihA' := goodAsk_mono _ _ hmonoA _ ihA
    have hPbB : ∀ x, sideP (us ++ [u]) Side.Bid x → i64min < x := by
      rintro x ⟨v, hv, hs, hx⟩
      rw [← hx]
      exact (h.1 v hv).1
    have hPaA : ∀ x, sideP (us ++ [u]) Side.Ask x → x < i64max := by
      rintro x ⟨v, hv, hs, hx⟩
      rw [← hx]
      exact (h.1 v hv).2
    have hPoB : ∀ x y, sideP (us ++ [u]) Side.Bid x → sideP (us ++ [u]) Side.Bid y →
        x < y → maskIdx x < maskIdx y := by
      rintro x y ⟨v, hv, hsv, hx⟩ ⟨w, hw, hsw, hy⟩ hlt
      rw [← hx, ← hy]
      exact h.2 v hv w hw (by rw [hsv, hsw]) (by rw [hx, hy]; exact hlt)
    have hPoA : ∀ x y, sideP (us ++ [u]) Side.Ask x → sideP (us ++ [u]) Side.Ask y →
        x < y → maskIdx x < maskIdx y := by
      rintro x y ⟨v, hv, hsv, hx⟩ ⟨w, hw, hsw, hy⟩ hlt
      rw [← hx, ← hy]
      exact h.2 v hv w hw (by rw [hsv, hsw]) (by rw [hx, hy]; exact hlt)
    have hrun : OrderBookImpl.new.applyUpdates (us ++ [u])
        = (OrderBookImpl.new.applyUpdates us).apply_update u := by
      unfold OrderBookImpl.applyUpdates
      rw [List.foldl_append]
      rfl
    rw [hrun]
    have hok := bookOk_run us
    cases u with
    | Set p q s =>
      cases s with
      | Bid =>
        constructor
        · exact goodBid_update _ hok.1 _ hPbB hPoB ihB' p q ⟨_, hmemu, rfl, rfl⟩
        · obtain ⟨e1, _, _, _, _, e6, e7⟩ :=
            update_bid_frame (OrderBookImpl.new.applyUpdates us) (maskIdx p) p q
          exact goodAsk_of_frame _ _ _ e1 e6 e7 ihA'
      | Ask =>
        constructor
        · obtain ⟨e1, _, _, _, _, e6, e7⟩ :=
            update_ask_frame (OrderBookImpl.new.applyUpdates us) (maskIdx p) p q
          exact goodBid_of_frame _ _ _ e1 e6 e7 ihB'
        · exact goodAsk_update _ hok.2 _ hPaA hPoA ihA' p q ⟨_, hmemu, rfl, rfl⟩
    | Remove p s =>
      cases s with
      | Bid =>
        constructor
        · exact goodBid_update _ hok.1 _ hPbB hPoB ihB' p 0 ⟨_, hmemu, rfl, rfl⟩
        · obtain ⟨e1, _, _, _, _, e6, e7⟩ :=
            update_bid_frame (OrderBookImpl.new.applyUpdates us) (maskIdx p) p 0
          exact goodAsk_of_frame _ _ _ e1 e6 e7 ihA'
      | Ask =>
        constructor
        · obtain ⟨e1, _, _, _, _, e6, e7⟩ :=
            update_ask_frame (OrderBookImpl.new.applyUpdates us) (maskIdx p) p 0
          exact goodBid_of_frame _ _ _ e1 e6 e7 ihB'
        · exact goodAsk_update _ hok.2 _ hPaA hPoA ihA' p 0 ⟨_, hmemu, rfl, rfl⟩


set_option maxRecDepth 100000 in
/-- C2 (counterexample): with bids at 131122 (slot 50), 65636 (slot 100) and
200000 (slot 3392) — three live prices with pairwise distinct masked
indices — removing the best leaves `get_best_bid = some 65636` while slot 50
still holds the larger live price 131122: the recompute picks the highest
occupied *index*, which is not the highest price when live prices span more
than one 65536-window. -/
theorem c2_cex :
    maskIdx 131122 = 50 ∧ maskIdx 65636 = 100 ∧ maskIdx 200000 = 3392 ∧
    (OrderBookImpl.new.applyUpdates
        [Update.Set 131122 1 Side.Bid, Update.Set 65636 1 Side.Bid,
         Update.Set 200000 1 Side.Bid,
         Update.Remove 200000 Side.Bid]).get_best_bid = some 65636 ∧
    (OrderBookImpl.new.applyUpdates
        [Update.Set 131122 1 Side.Bid, Update.Set 65636 1 Side.Bid,
         Update.Set 200000 1 Side.Bid,
         Update.Remove 200000 Side.Bid]).bid_quantities 50 ≠ 0 ∧
    (OrderBookImpl.new.applyUpdates
        [Update.Set 131122 1 Side.Bid, Update.Set 65636 1 Side.Bid,
         Update.Set 200000 1 Side.Bid,
         Update.Remove 200000 Side.Bid]).bid_prices 50 = 131122 ∧
    (65636 : Int) < 131122 := by
  exact ⟨by decide, by decide, by decide, by rfl, by decide, by rfl, by decide⟩

/-- C2 (amended): under the strengthened discipline `traceOK` — prices
strictly inside the sentinels and, per side, masked-index order agreeing
with price order (which implies the claim's no-alias requirement) —
`get_best_bid` is `none` iff the bid side is empty and otherwise returns the
maximum stored occupied bid price; symmetrically `get_best_ask` returns the
minimum stored occupied ask price. -/
theorem best_price_correctness (us : List Update) (h : traceOK us)
    (b : OrderBookImpl) (hb : b = OrderBookImpl.new.applyUpdates us) :
    (b.get_best_bid = none ↔ ∀ i, i < CAP → b.bid_quantities i = 0) ∧
    (∀ x, b.get_best_bid = some x →
      (∃ i, i < CAP ∧ b.bid_quantities i ≠ 0 ∧ b.bid_prices i = x) ∧
      ∀ j, j < CAP → b.bid_quantities j ≠ 0 → b.bid_prices j ≤ x) ∧
    (b.get_best_ask = none ↔ ∀ i, i < CAP → b.ask_quantities i = 0) ∧
    (∀ x, b.get_best_ask = some x →
      (∃ i, i < CAP ∧ b.ask_quantities i ≠ 0 ∧ b.ask_prices i = x) ∧
      ∀ j, j < CAP → b.ask_quantities j ≠ 0 → x ≤ b.ask_prices j) := by
  subst hb
  obtain ⟨⟨hPB, hbestB⟩, ⟨hPA, hbestA⟩⟩ := goodRun us h
  have hsentB : ∀ x, sideP us Side.Bid x → i64min < x := by
    rintro x ⟨v, hv, _, hx⟩
    rw [← hx]
    exact (h.1 v hv).1
  have hsentA : ∀ x, sideP us Side.Ask x → x < i64max := by
    rintro x ⟨v, hv, _, hx⟩
    rw [← hx]
    exact (h.1 v hv).2
  refine ⟨?_, ?_, ?_, ?_⟩
  · rcases hbestB with ⟨hemp, hsent⟩ | ⟨i, hiC, hqi, hbeq, hmax⟩
    · exact ⟨fun _ => hemp, fun _ => by simp [OrderBookImpl.get_best_bid, hsent]⟩
    · constructor
      · intro hnone
        have hne : (OrderBookImpl.new.applyUpdates us).best_bid ≠ i64min := by
          rw [hbeq]
          have := hsentB _ (hPB i hiC hqi)
          omega
        simp [OrderBookImpl.get_best_bid, hne] at hnone
      · intro hemp
        exact absurd (hemp i hiC) hqi
  · intro x hx
    rcases hbestB with ⟨hemp, hsent⟩ | ⟨i, hiC, hqi, hbeq, hmax⟩
    · simp [OrderBookImpl.get_best_bid, hsent] at hx
    · have hne : (OrderBookImpl.new.applyUpdates us).best_bid ≠ i64min := by
        rw [hbeq]
        have := hsentB _ (hPB i hiC hqi)
        omega
      simp only [OrderBookImpl.get_best_bid, if_neg hne, Option.some_inj] at hx
      rw [← hx, hbeq]
      exact ⟨⟨i, hiC, hqi, rfl⟩, hmax⟩
  · rcases hbestA with ⟨hemp, hsent⟩ | ⟨i, hiC, hqi, hbeq, hmin⟩
    · exact ⟨fun _ => hemp, fun _ => by simp [OrderBookImpl.get_best_ask, hsent]⟩
    · constructor
      · intro hnone
        have hne : (OrderBookImpl.new.applyUpdates us).best_ask ≠ i64max := by
          rw [hbeq]
          have := hsentA _ (hPA i hiC hqi)
          omega
        simp [OrderBookImpl.get_best_ask, hne] at hnone
      · intro hemp
        exact absurd (hemp i hiC) hqi
  · intro x hx
    rcases hbestA with ⟨hemp, hsent⟩ | ⟨i, hiC, hqi, hbeq, hmin⟩
    · simp [OrderBookImpl.get_best_ask, hsent] at hx
    · have hne : (OrderBookImpl.new.applyUpdates us).best_ask ≠ i64max := by
        rw [hbeq]
        have := hsentA _ (hPA i hiC hqi)
        omega
      simp only [OrderBookImpl.get_best_ask, if_neg hne, Option.some_inj] at hx
      rw [← hx, hbeq]
      exact ⟨⟨i, hiC, hqi, rfl⟩, hmin⟩

theorem best_price_correctness_witness :
    (∃ i, i < CAP ∧
        (OrderBookImpl.new.applyUpdates [Update.Set 10000 100 Side.Bid]).bid_quantities i ≠ 0 ∧
        (OrderBookImpl.new.applyUpdates [Update.Set 10000 100 Side.Bid]).bid_prices i = 10000) ∧
    ∀ j, j < CAP →
      (OrderBookImpl.new.applyUpdates [Update.Set 10000 100 Side.Bid]).bid_quantities j ≠ 0 →
      (OrderBookImpl.new.applyUpdates [Update.Set 10000 100 Side.Bid]).bid_prices j ≤ 10000 :=
  (best_price_correctness [Update.Set 10000 100 Side.Bid]
      (by unfold traceOK; decide) _ rfl).2.1 10000 (by rfl)


theorem update_bid_total (b : OrderBookImpl) (i : Nat) (p : Int) (q : Nat) :
    (b.update_bid i p q).total_bid_qty =
      if q = 0 then
        (if 0 < b.bid_quantities i then b.total_bid_qty - b.bid_quantities i
         else b.total_bid_qty)
      else b.total_bid_qty + q - b.bid_quantities i := by
  simp only [OrderBookImpl.update_bid]
  split_ifs with h1 h2 h3 h4 h5 <;>
    first
      | rfl
      | (obtain ⟨pp, hp⟩ := find_new_best_bid_shape _
         rw [hp])

theorem update_ask_total (b : OrderBookImpl) (i : Nat) (p : Int) (q : Nat) :
    (b.update_ask i p q).total_ask_qty =
      if q = 0 then
        (if 0 < b.ask_quantities i then b.total_ask_qty - b.ask_quantities i
         else b.total_ask_qty)
      else b.total_ask_qty + q - b.ask_quantities i := by
  simp only [OrderBookImpl.update_ask]
  split_ifs with h1 h2 h3 h4 h5 <;>
    first
      | rfl
      | (obtain ⟨pp, hp⟩ := find_new_best_ask_shape _
         rw [hp])

/-- C4 (counterexample): on the reachable book with a single bid of
quantity 5 at price 100, applying `Set{100, 7, Bid}` then `Remove{100, Bid}`
does not restore the side: the total drops from 5 to 0 and the best bid from
`some 100` to `none`, because the `Set` overwrote an occupied slot. -/
theorem c4_cex :
    ((OrderBookImpl.new.applyUpdates [Update.Set 100 5 Side.Bid]).get_total_quantity
        Side.Bid = 5 ∧
     (OrderBookImpl.new.applyUpdates [Update.Set 100 5 Side.Bid]).get_best_bid
        = some 100) ∧
    ((OrderBookImpl.new.applyUpdates [Update.Set 100 5 Side.Bid,
        Update.Set 100 7 Side.Bid, Update.Remove 100 Side.Bid]).get_total_quantity
        Side.Bid = 0 ∧
     (OrderBookImpl.new.applyUpdates [Update.Set 100 5 Side.Bid,
        Update.Set 100 7 Side.Bid, Update.Remove 100 Side.Bid]).get_best_bid
        = none) := by
  exact ⟨⟨by rfl, by rfl⟩, ⟨by rfl, by rfl⟩⟩

theorem round_trip_bid (b : OrderBookImpl) (hok : BidOk b) (P : Int → Prop)
    (hPo : ∀ x y, P x → P y → x < y → maskIdx x < maskIdx y)
    (hg : GoodBid P b) (p : Int) (q : Nat)
    (hold : b.bid_quantities (maskIdx p) = 0) :
    ((b.update_bid (maskIdx p) p q).update_bid (maskIdx p) p 0).best_bid
        = b.best_bid ∧
    ((b.update_bid (maskIdx p) p q).update_bid (maskIdx p) p 0).total_bid_qty
        = b.total_bid_qty ∧
    ((b.update_bid (maskIdx p) p q).update_bid (maskIdx p) p 0).bid_quantities
        (maskIdx p) = 0 := by
  have hokX : BidOk (b.update_bid (maskIdx p) p q) := bidOk_update_bid b hok p q
  set X := b.update_bid (maskIdx p) p q with hX
  set Y := X.update_bid (maskIdx p) p 0 with hY
  have hXq1 : X.bid_quantities (maskIdx p) = q := by
    rw [hX, (update_bid_qty_prices b (maskIdx p) p q).1]
    simp
  have hXq2 : ∀ j, j ≠ maskIdx p → X.bid_quantities j = b.bid_quantities j := by
    intro j hj
    rw [hX, (update_bid_qty_prices b (maskIdx p) p q).1]
    simp [hj]
  have hXp2 : ∀ j, j ≠ maskIdx p → X.bid_prices j = b.bid_prices j := by
    intro j hj
    rw [hX, (update_bid_qty_prices b (maskIdx p) p q).2]
    simp [hj]
  have hYq1 : Y.bid_quantities (maskIdx p) = 0 := by
    rw [hY, (update_bid_qty_prices X (maskIdx p) p 0).1]
    simp
  refine ⟨?_, ?_, hYq1⟩
  · by_cases hq : q = 0
    · subst hq
      have e2 : Y.best_bid = X.best_bid := update_bid_best_noop X p hXq1
      have e1 : X.best_bid = b.best_bid := update_bid_best_noop b p hold
      rw [e2, e1]
    · by_cases hpb : p = X.best_bid
      · obtain ⟨hEmpty, hOcc⟩ :=
          update_bid_best_remove_best X hokX p (by rw [hXq1]; exact hq) hpb
        by_cases hbemp : ∀ j, j < CAP → b.bid_quantities j = 0
        · have hYs : Y.best_bid = i64min :=
            hEmpty (fun j hj hji => by rw [hXq2 j hji]; exact hbemp j hj)
          rcases hg.2 with ⟨_, hsent⟩ | ⟨k0, hk0C, hk0q, _, _⟩
          · rw [hYs, hsent]
          · exact absurd (hbemp k0 hk0C) hk0q
        · push_neg at hbemp
          obtain ⟨j0, hj0, hj0q⟩ := hbemp
          have hj0ne : j0 ≠ maskIdx p := fun hc => hj0q (hc ▸ hold)
          obtain ⟨k, hkC, hkne, hkqX, hkbest, hkmax⟩ :=
            hOcc j0 hj0 hj0ne (by rw [hXq2 j0 hj0ne]; exact hj0q)
          have hkqb : b.bid_quantities k ≠ 0 := by
            rw [← hXq2 k hkne]
            exact hkqX
          rcases hg.2 with ⟨hemp', _⟩ | ⟨im, himC, himq, hbeq, hmax⟩
          · exact absurd (hemp' j0 hj0) hj0q
          · have himne : im ≠ maskIdx p := fun hc => himq (hc ▸ hold)
            have himk : im ≤ k :=
              hkmax im himC himne (by rw [hXq2 im himne]; exact himq)
            have heqk : im = k := by
              rcases eq_or_lt_of_le himk with he | hlt
              · exact he
              · have hm1 := prices_mono_bid b hok P hg.1 hPo im k himC hkC himq hkqb hlt
                have hm2 := hmax k hkC hkqb
                omega
            rw [hkbest, hXp2 k hkne, hbeq, heqk]
      · have e2 : Y.best_bid = X.best_bid :=
          update_bid_best_remove_nonbest X p (by rw [hXq1]; exact hq) hpb
        have e1 := update_bid_best_insert b p q hq
        by_cases hlt : b.best_bid < p
        · rw [if_pos hlt] at e1
          rw [← hX] at e1
          exact absurd e1.symm hpb
        · rw [if_neg hlt] at e1
          rw [← hX] at e1
          rw [e2, e1]
  · have t1 := update_bid_total b (maskIdx p) p q
    have t2 := update_bid_total X (maskIdx p) p 0
    rw [← hX] at t1
    rw [← hY, hXq1] at t2
    by_cases hq : q = 0
    · subst hq
      simp [hold] at t1
      simp at t2
      rw [t2, t1]
    · simp [hq, hold] at t1
      simp [Nat.pos_of_ne_zero hq] at t2
      omega

theorem round_trip_ask (b : OrderBookImpl) (hok : AskOk b) (P : Int → Prop)
    (hPo : ∀ x y, P x → P y → x < y → maskIdx x < maskIdx y)
    (hg : GoodAsk P b) (p : Int) (q : Nat)
    (hold : b.ask_quantities (maskIdx p) = 0) :
    ((b.update_ask (maskIdx p) p q).update_ask (maskIdx p) p 0).best_ask
        = b.best_ask ∧
    ((b.update_ask (maskIdx p) p q).update_ask (maskIdx p) p 0).total_ask_qty
        = b.total_ask_qty ∧
    ((b.update_ask (maskIdx p) p q).update_ask (maskIdx p) p 0).ask_quantities
        (maskIdx p) = 0 := by
  have hokX : AskOk (b.update_ask (maskIdx p) p q) := askOk_update_ask b hok p q
  set X := b.update_ask (maskIdx p) p q with hX
  set Y := X.update_ask (maskIdx p) p 0 with hY
  have hXq1 : X.ask_quantities (maskIdx p) = q := by
    rw [hX, (update_ask_qty_prices b (maskIdx p) p q).1]
    simp
  have hXq2 : ∀ j, j ≠ maskIdx p → X.ask_quantities j = b.ask_quantities j := by
    intro j hj
    rw [hX, (update_ask_qty_prices b (maskIdx p) p q).1]
    simp [hj]
  have hXp2 : ∀ j, j ≠ maskIdx p → X.ask_prices j = b.ask_prices j := by
    intro j hj
    rw [hX, (update_ask_qty_prices b (maskIdx p) p q).2]
    simp [hj]
  have hYq1 : Y.ask_quantities (maskIdx p) = 0 := by
    rw [hY, (update_ask_qty_prices X (maskIdx p) p 0).1]
    simp
  refine ⟨?_, ?_, hYq1⟩
  · by_cases hq : q = 0
    · subst hq
      have e2 : Y.best_ask = X.best_ask := update_ask_best_noop X p hXq1
      have e1 : X.best_ask = b.best_ask := update_ask_best_noop b p hold
      rw [e2, e1]
    · by_cases hpb : p = X.best_ask
      · obtain ⟨hEmpty, hOcc⟩ :=
          update_ask_best_remove_best X hokX p (by rw [hXq1]; exact hq) hpb
        by_cases hbemp : ∀ j, j < CAP → b.ask_quantities j = 0
        · have hYs : Y.best_ask = i64max :=
            hEmpty (fun j hj hji => by rw [hXq2 j hji]; exact hbemp j hj)
          rcases hg.2 with ⟨_, hsent⟩ | ⟨k0, hk0C, hk0q, _, _⟩
          · rw [hYs, hsent]
          · exact absurd (hbemp k0 hk0C) hk0q
        · push_neg at hbemp
          obtain ⟨j0, hj0, hj0q⟩ := hbemp
          have hj0ne : j0 ≠ maskIdx p := fun hc => hj0q (hc ▸ hold)
          obtain ⟨k, hkC, hkne, hkqX, hkbest, hkmax⟩ :=
            hOcc j0 hj0 hj0ne (by rw [hXq2 j0 hj0ne]; exact hj0q)
          have hkqb : b.ask_quantities k ≠ 0 := by
            rw [← hXq2 k hkne]
            exact hkqX
          rcases hg.2 with ⟨hemp', _⟩ | ⟨im, himC, himq, hbeq, hmax⟩
          · exact absurd (hemp' j0 hj0) hj0q
          · have himne : im ≠ maskIdx p := fun hc => himq (hc ▸ hold)
            have himk : k ≤ im :=
              hkmax im himC himne (by rw [hXq2 im himne]; exact himq)
            have heqk : im = k := by
              rcases eq_or_lt_of_le himk with he | hlt
              · exact he.symm
              · have hm1 := prices_mono_ask b hok P hg.1 hPo k im hkC himC hkqb himq hlt
                have hm2 := hmax k hkC hkqb
                omega
            rw [hkbest, hXp2 k hkne, hbeq, heqk]
      · have e2 : Y.best_ask = X.best_ask :=
          update_ask_best_remove_nonbest X p (by rw [hXq1]; exact hq) hpb
        have e1 := update_ask_best_insert b p q hq
        by_cases hlt : p < b.best_ask
        · rw [if_pos hlt] at e1
          rw [← hX] at e1
          exact absurd e1.symm hpb
        · rw [if_neg hlt] at e1
          rw [← hX] at e1
          rw [e2, e1]
  · have t1 := update_ask_total b (maskIdx p) p q
    have t2 := update_ask_total X (maskIdx p) p 0
    rw [← hX] at t1
    rw [← hY, hXq1] at t2
    by_cases hq : q = 0
    · subst hq
      simp [hold] at t1
      simp at t2
      rw [t2, t1]
    · simp [hq, hold] at t1
      simp [Nat.pos_of_ne_zero hq] at t2
      omega


/-- C4 (amended): on every state reachable under the `traceOK` discipline,
and for every price, quantity and side whose slot `price & 65535` is
currently unoccupied on that side (`get_quantity_at` is `none`),
`Set{p, q, side}` followed immediately by `Remove{p, side}` restores both
best prices, the side's total quantity, and leaves
`get_quantity_at(p, side) = none`. -/
theorem set_remove_round_trip (us : List Update) (h : traceOK us)
    (b : OrderBookImpl) (hb : b = OrderBookImpl.new.applyUpdates us)
    (p : Int) (q : Nat) (s : Side)
    (hempty : b.get_quantity_at p s = none) :
    ((b.apply_update (Update.Set p q s)).apply_update
        (Update.Remove p s)).get_best_bid = b.get_best_bid ∧
    ((b.apply_update (Update.Set p q s)).apply_update
        (Update.Remove p s)).get_best_ask = b.get_best_ask ∧
    ((b.apply_update (Update.Set p q s)).apply_update
        (Update.Remove p s)).get_total_quantity s = b.get_total_quantity s ∧
    ((b.apply_update (Update.Set p q s)).apply_update
        (Update.Remove p s)).get_quantity_at p s = none := by
  subst hb
  obtain ⟨hgB, hgA⟩ := goodRun us h
  have hok := bookOk_run us
  have hPoB : ∀ x y, sideP us Side.Bid x → sideP us Side.Bid y →
      x < y → maskIdx x < maskIdx y := by
    rintro x y ⟨v, hv, hsv, hx⟩ ⟨w, hw, hsw, hy⟩ hlt
    rw [← hx, ← hy]
    exact h.2 v hv w hw (by rw [hsv, hsw]) (by rw [hx, hy]; exact hlt)
  have hPoA : ∀ x y, sideP us Side.Ask x → sideP us Side.Ask y →
      x < y → maskIdx x < maskIdx y := by
    rintro x y ⟨v, hv, hsv, hx⟩ ⟨w, hw, hsw, hy⟩ hlt
    rw [← hx, ← hy]
    exact h.2 v hv w hw (by rw [hsv, hsw]) (by rw [hx, hy]; exact hlt)
  cases s with
  | Bid =>
    have hold : (OrderBookImpl.new.applyUpdates us).bid_quantities (maskIdx p) = 0 := by
      by_contra hc
      simp [OrderBookImpl.get_quantity_at, Nat.pos_of_ne_zero hc] at hempty
    obtain ⟨e1, e2, e3⟩ :=
      round_trip_bid (OrderBookImpl.new.applyUpdates us) hok.1
        (sideP us Side.Bid) hPoB hgB p q hold
    obtain ⟨f1, _, _, _, _, _, _⟩ :=
      update_bid_frame ((OrderBookImpl.new.applyUpdates us).update_bid (maskIdx p) p q)
        (maskIdx p) p 0
    obtain ⟨g1, _, _, _, _, _, _⟩ :=
      update_bid_frame (OrderBookImpl.new.applyUpdates us) (maskIdx p) p q
    refine ⟨?_, ?_, ?_, ?_⟩
    · show ((((OrderBookImpl.new.applyUpdates us).update_bid (maskIdx p) p q).update_bid
          (maskIdx p) p 0)).get_best_bid = _
      unfold OrderBookImpl.get_best_bid
      rw [e1]
    · show ((((OrderBookImpl.new.applyUpdates us).update_bid (maskIdx p) p q).update_bid
          (maskIdx p) p 0)).get_best_ask = _
      unfold OrderBookImpl.get_best_ask
      rw [f1, g1]
    · exact e2
    · show ((((OrderBookImpl.new.applyUpdates us).update_bid (maskIdx p) p q).update_bid
          (maskIdx p) p 0)).get_quantity_at p Side.Bid = none
      simp [OrderBookImpl.get_quantity_at, e3]
  | Ask =>
    have hold : (OrderBookImpl.new.applyUpdates us).ask_quantities (maskIdx p) = 0 := by
      by_contra hc
      simp [OrderBookImpl.get_quantity_at, Nat.pos_of_ne_zero hc] at hempty
    obtain ⟨e1, e2, e3⟩ :=
      round_trip_ask (OrderBookImpl.new.applyUpdates us) hok.2
        (sideP us Side.Ask) hPoA hgA p q hold
    obtain ⟨f1, _, _, _, _, _, _⟩ :=
      update_ask_frame ((OrderBookImpl.new.applyUpdates us).update_ask (maskIdx p) p q)
        (maskIdx p) p 0
    obtain ⟨g1, _, _, _, _, _, _⟩ :=
      update_ask_frame (OrderBookImpl.new.applyUpdates us) (maskIdx p) p q
    refine ⟨?_, ?_, ?_, ?_⟩
    · show ((((OrderBookImpl.new.applyUpdates us).update_ask (maskIdx p) p q).update_ask
          (maskIdx p) p 0)).get_best_bid = _
      unfold OrderBookImpl.get_best_bid
      rw [f1, g1]
    · show ((((OrderBookImpl.new.applyUpdates us).update_ask (maskIdx p) p q).update_ask
          (maskIdx p) p 0)).get_best_ask = _
      unfold OrderBookImpl.get_best_ask
      rw [e1]
    · exact e2
    · show ((((OrderBookImpl.new.applyUpdates us).update_ask (maskIdx p) p q).update_ask
          (maskIdx p) p 0)).get_quantity_at p Side.Ask = none
      simp [OrderBookImpl.get_quantity_at, e3]

theorem set_remove_round_trip_witness :
    (((OrderBookImpl.new.applyUpdates [Update.Set 10000 100 Side.Bid]).apply_update
        (Update.Set 200 7 Side.Bid)).apply_update
        (Update.Remove 200 Side.Bid)).get_best_bid
      = (OrderBookImpl.new.applyUpdates [Update.Set 10000 100 Side.Bid]).get_best_bid ∧
    (((OrderBookImpl.new.applyUpdates [Update.Set 10000 100 Side.Bid]).apply_update
        (Update.Set 200 7 Side.Bid)).apply_update
        (Update.Remove 200 Side.Bid)).get_best_ask
      = (OrderBookImpl.new.applyUpdates [Update.Set 10000 100 Side.Bid]).get_best_ask ∧
    (((OrderBookImpl.new.applyUpdates [Update.Set 10000 100 Side.Bid]).apply_update
        (Update.Set 200 7 Side.Bid)).apply_update
        (Update.Remove 200 Side.Bid)).get_total_quantity Side.Bid
      = (OrderBookImpl.new.applyUpdates [Update.Set 10000 100 Side.Bid]).get_total_quantity
          Side.Bid ∧
    (((OrderBookImpl.new.applyUpdates [Update.Set 10000 100 Side.Bid]).apply_update
        (Update.Set 200 7 Side.Bid)).apply_update
        (Update.Remove 200 Side.Bid)).get_quantity_at 200 Side.Bid = none :=
  set_remove_round_trip [Update.Set 10000 100 Side.Bid]
    (by unfold traceOK; decide) _ rfl 200 7 Side.Bid (by rfl)

end OrderBookTd
namespace OrderBookTd

/-! Characterization of `get_top_levels` as filter-map-take over the visited
index sequence. -/

/-- Descending index run `[j, j-1, ..., j-k+1]`. -/
def descList (j k : Nat) : List Nat := (List.range k).map (fun t => j - t)

/-- Ascending index run `[j, j+1, ..., j+k-1]`. -/
def ascList (j k : Nat) : List Nat := (List.range k).map (fun t => j + t)

theorem descList_succ (j k : Nat) : descList j (k + 1) = j :: descList (j - 1) k := by
  unfold descList
  rw [List.range_succ_eq_map]
  simp only [List.map_cons, Nat.sub_zero, List.map_map]
  refine congrArg (j :: ·) (List.map_congr_left ?_)
  intro t ht
  simp only [Function.comp]
  omega

theorem ascList_succ (j k : Nat) : ascList j (k + 1) = j :: ascList (j + 1) k := by
  unfold ascList
  rw [List.range_succ_eq_map]
  simp only [List.map_cons, Nat.add_zero, List.map_map]
  refine congrArg (j :: ·) (List.map_congr_left ?_)
  intro t ht
  simp only [Function.comp]
  omega

theorem descList_mem {j k a : Nat} (h : a ∈ descList j k) : a ≤ j := by
  obtain ⟨t, ht, rfl⟩ := List.mem_map.1 h
  omega

theorem ascList_mem {j k a : Nat} (h : a ∈ ascList j k) : j ≤ a ∧ a < j + k := by
  obtain ⟨t, ht, rfl⟩ := List.mem_map.1 h
  rw [List.mem_range] at ht
  omega

theorem descList_pairwise : ∀ k j, k ≤ j + 1 → (descList j k).Pairwise (fun a b => b < a) := by
  intro k
  induction k with
  | zero => intro j _; exact List.Pairwise.nil
  | succ k ih =>
    intro j hk
    rw [descList_succ]
    refine List.pairwise_cons.2 ⟨fun b hb => ?_, ih (j - 1) (by omega)⟩
    have hb' := descList_mem hb
    rcases Nat.eq_zero_or_pos k with h0 | h0
    · subst h0; simp [descList] at hb
    · omega

theorem ascList_pairwise : ∀ k j, (ascList j k).Pairwise (fun a b => a < b) := by
  intro k
  induction k with
  | zero => intro j; exact List.Pairwise.nil
  | succ k ih =>
    intro j
    rw [ascList_succ]
    refine List.pairwise_cons.2 ⟨fun b hb => ?_, ih (j + 1)⟩
    have hb' := ascList_mem hb
    omega

/-- Reference walk over an explicit list of slot indices, bid side: emit
occupied slots in order, stopping as soon as `n` pairs are collected. -/
def walkSpecBid (b : OrderBookImpl) (n : Nat) :
    List Nat → List (Int × Nat) → List (Int × Nat)
  | [], out => out
  | i :: rest, out =>
    let q := b.bid_quantities i
    if 0 < q then
      let out2 := out ++ [(b.bid_prices i, q)]
      if n ≤ out2.length then out2 else walkSpecBid b n rest out2
    else walkSpecBid b n rest out

/-- Reference walk, ask side. -/
def walkSpecAsk (b : OrderBookImpl) (n : Nat) :
    List Nat → List (Int × Nat) → List (Int × Nat)
  | [], out => out
  | i :: rest, out =>
    let q := b.ask_quantities i
    if 0 < q then
      let out2 := out ++ [(b.ask_prices i, q)]
      if n ≤ out2.length then out2 else walkSpecAsk b n rest out2
    else walkSpecAsk b n rest out

/-- The occupied `(price, quantity)` pairs along an index list, bid side. -/
def emitBid (b : OrderBookImpl) (idxs : List Nat) : List (Int × Nat) :=
  (idxs.filter (fun i => decide (0 < b.bid_quantities i))).map
    (fun i => (b.bid_prices i, b.bid_quantities i))

/-- The occupied `(price, quantity)` pairs along an index list, ask side. -/
def emitAsk (b : OrderBookImpl) (idxs : List Nat) : List (Int × Nat) :=
  (idxs.filter (fun i => decide (0 < b.ask_quantities i))).map
    (fun i => (b.ask_prices i, b.ask_quantities i))

theorem walkSpecBid_zero (b : OrderBookImpl) :
    ∀ idxs out, walkSpecBid b 0 idxs out = out ++ (emitBid b idxs).take 1 := by
  intro idxs
  induction idxs with
  | nil => intro out; simp [walkSpecBid, emitBid]
  | cons i rest ih =>
    intro out
    by_cases hq : 0 < b.bid_quantities i
    · simp only [walkSpecBid, emitBid, hq, if_pos, List.filter_cons, decide_eq_true hq,
        ite_true, decide_True, List.map_cons, List.take_succ_cons, List.take_zero]
      rw [if_pos (by omega)]
    · simp only [walkSpecBid, hq, ite_false, if_neg hq]
      rw [ih out]
      simp [emitBid, List.filter_cons, hq]

theorem walkSpecAsk_zero (b : OrderBookImpl) :
    ∀ idxs out, walkSpecAsk b 0 idxs out = out ++ (emitAsk b idxs).take 1 := by
  intro idxs
  induction idxs with
  | nil => intro out; simp [walkSpecAsk, emitAsk]
  | cons i rest ih =>
    intro out
    by_cases hq : 0 < b.ask_quantities i
    · simp only [walkSpecAsk, emitAsk, hq, if_pos, List.filter_cons, decide_eq_true hq,
        ite_true, decide_True, List.map_cons, List.take_succ_cons, List.take_zero]
      rw [if_pos (by omega)]
    · simp only [walkSpecAsk, hq, ite_false, if_neg hq]
      rw [ih out]
      simp [emitAsk, List.filter_cons, hq]

theorem walkSpecBid_go (b : OrderBookImpl) (n : Nat) :
    ∀ idxs out, out.length < n →
      walkSpecBid b n idxs out = out ++ (emitBid b idxs).take (n - out.length) := by
  intro idxs
  induction idxs with
  | nil => intro out h; simp [walkSpecBid, emitBid]
  | cons i rest ih =>
    intro out hlt
    by_cases hq : 0 < b.bid_quantities i
    · have hemit : emitBid b (i :: rest)
          = (b.bid_prices i, b.bid_quantities i) :: emitBid b rest := by
        simp [emitBid, List.filter_cons, decide_eq_true hq]
      by_cases hstop : n ≤ out.length + 1
      · have hn : n - out.length = 1 := by omega
        simp only [walkSpecBid, hq, ite_true, if_pos hq, List.length_append,
          List.length_singleton]
        rw [if_pos (by omega), hemit, hn, List.take_succ_cons, List.take_zero]
      · simp only [walkSpecBid, hq, ite_true, if_pos hq, List.length_append,
          List.length_singleton]
        rw [if_neg (by omega), ih _ (by simp; omega)]
        rw [hemit]
        have hn : n - out.length = (n - (out.length + 1)) + 1 := by omega
        rw [hn, List.take_succ_cons]
        simp
    · simp only [walkSpecBid, hq, ite_false, if_neg hq]
      rw [ih out hlt]
      simp [emitBid, List.filter_cons, hq]

theorem walkSpecAsk_go (b : OrderBookImpl) (n : Nat) :
    ∀ idxs out, out.length < n →
      walkSpecAsk b n idxs out = out ++ (emitAsk b idxs).take (n - out.length) := by
  intro idxs
  induction idxs with
  | nil => intro out h; simp [walkSpecAsk, emitAsk]
  | cons i rest ih =>
    intro out hlt
    by_cases hq : 0 < b.ask_quantities i
    · have hemit : emitAsk b (i :: rest)
          = (b.ask_prices i, b.ask_quantities i) :: emitAsk b rest := by
        simp [emitAsk, List.filter_cons, decide_eq_true hq]
      by_cases hstop : n ≤ out.length + 1
      · have hn : n - out.length = 1 := by omega
        simp only [walkSpecAsk, hq, ite_true, if_pos hq, List.length_append,
          List.length_singleton]
        rw [if_pos (by omega), hemit, hn, List.take_succ_cons, List.take_zero]
      · simp only [walkSpecAsk, hq, ite_true, if_pos hq, List.length_append,
          List.length_singleton]
        rw [if_neg (by omega), ih _ (by simp; omega)]
        rw [hemit]
        have hn : n - out.length = (n - (out.length + 1)) + 1 := by omega
        rw [hn, List.take_succ_cons]
        simp
    · simp only [walkSpecAsk, hq, ite_false, if_neg hq]
      rw [ih out hlt]
      simp [emitAsk, List.filter_cons, hq]

theorem walkSpecBid_spec (b : OrderBookImpl) (n : Nat) (idxs : List Nat) :
    walkSpecBid b n idxs [] = (emitBid b idxs).take (max n 1) := by
  rcases Nat.eq_zero_or_pos n with h0 | h0
  · subst h0
    simpa using walkSpecBid_zero b idxs []
  · have := walkSpecBid_go b n idxs [] (by simpa using h0)
    simpa [Nat.max_eq_left h0] using this

theorem walkSpecAsk_spec (b : OrderBookImpl) (n : Nat) (idxs : List Nat) :
    walkSpecAsk b n idxs [] = (emitAsk b idxs).take (max n 1) := by
  rcases Nat.eq_zero_or_pos n with h0 | h0
  · subst h0
    simpa using walkSpecAsk_zero b idxs []
  · have := walkSpecAsk_go b n idxs [] (by simpa using h0)
    simpa [Nat.max_eq_left h0] using this

theorem top_walk_bid_above (b : OrderBookImpl) (n start : Nat) :
    ∀ k, 0 < k → start + k < CAP → ∀ fuel, k ≤ fuel → ∀ out,
      OrderBookImpl.top_walk_bid b n start fuel (start + k) out
        = walkSpecBid b n (descList (start + k) k) out := by
  intro k
  induction k with
  | zero => intro h; exact absurd h (by omega)
  | succ k ih =>
    intro _ hlt fuel hfuel out
    cases fuel with
    | zero => exact absurd hfuel (by omega)
    | succ f =>
      have hidx : (if start + (k + 1) = 0 then CAP - 1 else start + (k + 1) - 1)
          = start + k := by
        rw [if_neg (by omega)]
        omega
      rw [descList_succ]
      have hd : start + (k + 1) - 1 = start + k := by omega
      rw [hd]
      simp only [OrderBookImpl.top_walk_bid, walkSpecBid, hidx]
      split_ifs with h1 h2 h3 h4
      · rfl
      · obtain hk : k = 0 := by omega
        subst hk
        simp [descList, walkSpecBid]
      · exact ih (by omega) (by omega) f (by omega) _
      · obtain hk : k = 0 := by omega
        subst hk
        simp [descList, walkSpecBid]
      · exact ih (by omega) (by omega) f (by omega) _


theorem top_walk_bid_below (b : OrderBookImpl) (n start : Nat) (hs : start < CAP) :
    ∀ idx, idx ≤ start → ∀ fuel, idx + (CAP - start) ≤ fuel → ∀ out,
      OrderBookImpl.top_walk_bid b n start fuel idx out
        = walkSpecBid b n (descList idx (idx + 1)
            ++ descList (CAP - 1) (CAP - 1 - start)) out := by
  intro idx
  induction idx with
  | zero =>
    intro _ fuel hfuel out
    cases fuel with
    | zero => exact absurd hfuel (by omega)
    | succ f =>
      have hcons : descList 0 (0 + 1) ++ descList (CAP - 1) (CAP - 1 - start)
          = 0 :: descList (CAP - 1) (CAP - 1 - start) := by
        simp [descList]
      rw [hcons]
      have hidx : (if (0 : Nat) = 0 then CAP - 1 else 0 - 1) = CAP - 1 := by
        rw [if_pos rfl]
      simp only [OrderBookImpl.top_walk_bid, walkSpecBid, hidx]
      split_ifs with h1 h2 h3 h4
      · rfl
      · obtain hk : CAP - 1 - start = 0 := by omega
        rw [hk]
        simp [descList, walkSpecBid]
      · set m := CAP - 1 - start with hm
        rw [show CAP - 1 = start + m from by omega]
        exact top_walk_bid_above b n start m (by omega) (by omega) f (by omega) _
      · obtain hk : CAP - 1 - start = 0 := by omega
        rw [hk]
        simp [descList, walkSpecBid]
      · set m := CAP - 1 - start with hm
        rw [show CAP - 1 = start + m from by omega]
        exact top_walk_bid_above b n start m (by omega) (by omega) f (by omega) _
  | succ i ih =>
    intro hle fuel hfuel out
    cases fuel with
    | zero => exact absurd hfuel (by omega)
    | succ f =>
      have hcons : descList (i + 1) (i + 1 + 1) ++ descList (CAP - 1) (CAP - 1 - start)
          = (i + 1) :: (descList i (i + 1) ++ descList (CAP - 1) (CAP - 1 - start)) := by
        rw [descList_succ]
        simp [Nat.add_sub_cancel]
      rw [hcons]
      have hidx : (if i + 1 = 0 then CAP - 1 else i + 1 - 1) = i := by
        rw [if_neg (by omega)]
        omega
      simp only [OrderBookImpl.top_walk_bid, walkSpecBid, hidx]
      split_ifs with h1 h2 h3 h4
      · rfl
      · omega
      · exact ih (by omega) f (by omega) _
      · omega
      · exact ih (by omega) f (by omega) _

theorem top_walk_ask_wrap (b : OrderBookImpl) (n start : Nat) :
    ∀ k, 0 < k → k ≤ start → start < CAP → ∀ fuel, k ≤ fuel → ∀ out,
      OrderBookImpl.top_walk_ask b n start fuel (start - k) out
        = walkSpecAsk b n (ascList (start - k) k) out := by
  intro k
  induction k with
  | zero => intro h; exact absurd h (by omega)
  | succ k ih =>
    intro _ hks hsC fuel hfuel out
    cases fuel with
    | zero => exact absurd hfuel (by omega)
    | succ f =>
      have hidx : (if start - (k + 1) = CAP - 1 then 0 else start - (k + 1) + 1)
          = start - k := by
        rw [if_neg (by omega)]
        omega
      have hcons : ascList (start - (k + 1)) (k + 1)
          = (start - (k + 1)) :: ascList (start - k) k := by
        rw [ascList_succ, show start - (k + 1) + 1 = start - k from by omega]
      rw [hcons]
      simp only [OrderBookImpl.top_walk_ask, walkSpecAsk, hidx]
      split_ifs with h1 h2 h3 h4
      · rfl
      · obtain hk : k = 0 := by omega
        subst hk
        simp [ascList, walkSpecAsk]
      · exact ih (by omega) (by omega) hsC f (by omega) _
      · obtain hk : k = 0 := by omega
        subst hk
        simp [ascList, walkSpecAsk]
      · exact ih (by omega) (by omega) hsC f (by omega) _

theorem top_walk_ask_main (b : OrderBookImpl) (n start : Nat) (hs : start < CAP) :
    ∀ k, 0 < k → ∀ idx, idx + k = CAP → start ≤ idx → ∀ fuel, k + start ≤ fuel → ∀ out,
      OrderBookImpl.top_walk_ask b n start fuel idx out
        = walkSpecAsk b n (ascList idx k ++ ascList 0 start) out := by
  intro k
  induction k with
  | zero => intro h; exact absurd h (by omega)
  | succ k ih =>
    intro _ idx hiC hsi fuel hfuel out
    cases fuel with
    | zero => exact absurd hfuel (by omega)
    | succ f =>
      rcases Nat.eq_zero_or_pos k with hk0 | hkpos
      · subst hk0
        obtain hidxC : idx = CAP - 1 := by omega
        subst hidxC
        have hidx : (if CAP - 1 = CAP - 1 then 0 else CAP - 1 + 1) = 0 := by
          rw [if_pos rfl]
        have hcons : ascList (CAP - 1) (0 + 1) ++ ascList 0 start
            = (CAP - 1) :: ascList 0 start := by
          rw [ascList_succ]
          simp [ascList]
        rw [hcons]
        simp only [OrderBookImpl.top_walk_ask, walkSpecAsk, hidx]
        split_ifs with h1 h2 h3 h4
        · rfl
        · obtain hk : start = 0 := by omega
          subst hk
          simp [ascList, walkSpecAsk]
        · have h0 : (0 : Nat) = start - start := by omega
          rw [h0]
          exact top_walk_ask_wrap b n start start (by omega) le_rfl hs f (by omega) _
        · obtain hk : start = 0 := by omega
          subst hk
          simp [ascList, walkSpecAsk]
        · have h0 : (0 : Nat) = start - start := by omega
          rw [h0]
          exact top_walk_ask_wrap b n start start (by omega) le_rfl hs f (by omega) _
      · have hidx : (if idx = CAP - 1 then 0 else idx + 1) = idx + 1 := by
          rw [if_neg (by omega)]
        have hcons : ascList idx (k + 1) ++ ascList 0 start
            = idx :: (ascList (idx + 1) k ++ ascList 0 start) := by
          rw [ascList_succ]
          rfl
        rw [hcons]
        simp only [OrderBookImpl.top_walk_ask, walkSpecAsk, hidx]
        split_ifs with h1 h2 h3 h4
        · rfl
        · omega
        · exact ih hkpos (idx + 1) (by omega) (by omega) f (by omega) _
        · omega
        · exact ih hkpos (idx + 1) (by omega) (by omega) f (by omega) _

theorem get_top_levels_bid_eq (b : OrderBookImpl) (n : Nat)
    (hne : ¬ b.best_bid = i64min) :
    b.get_top_levels Side.Bid n
      = (emitBid b (descList (maskIdx b.best_bid) (maskIdx b.best_bid + 1)
          ++ descList (CAP - 1) (CAP - 1 - maskIdx b.best_bid))).take (max n 1) := by
  have hlt : maskIdx b.best_bid < CAP := maskIdx_lt b.best_bid
  show (if b.best_bid = i64min then [] else
      OrderBookImpl.top_walk_bid b n (maskIdx b.best_bid) CAP (maskIdx b.best_bid) [])
    = _
  rw [if_neg hne]
  rw [top_walk_bid_below b n (maskIdx b.best_bid) hlt (maskIdx b.best_bid) le_rfl CAP
    (by omega) []]
  exact walkSpecBid_spec b n _

theorem get_top_levels_ask_eq (b : OrderBookImpl) (n : Nat)
    (hne : ¬ b.best_ask = i64max) :
    b.get_top_levels Side.Ask n
      = (emitAsk b (ascList (maskIdx b.best_ask) (CAP - maskIdx b.best_ask)
          ++ ascList 0 (maskIdx b.best_ask))).take (max n 1) := by
  have hlt : maskIdx b.best_ask < CAP := maskIdx_lt b.best_ask
  show (if b.best_ask = i64max then [] else
      OrderBookImpl.top_walk_ask b n (maskIdx b.best_ask) CAP (maskIdx b.best_ask) [])
    = _
  rw [if_neg hne]
  rw [top_walk_ask_main b n (maskIdx b.best_ask) hlt (CAP - maskIdx b.best_ask)
    (by omega) (maskIdx b.best_ask) (by omega) le_rfl CAP (by omega) []]
  exact walkSpecAsk_spec b n _


theorem descList_mem_lb {j k a : Nat} (h : a ∈ descList j k) (hk : k ≤ j) :
    j - k < a := by
  obtain ⟨t, ht, rfl⟩ := List.mem_map.1 h
  rw [List.mem_range] at ht
  omega

theorem emitBid_append (b : OrderBookImpl) (l l2 : List Nat) :
    emitBid b (l ++ l2) = emitBid b l ++ emitBid b l2 := by
  simp [emitBid, List.filter_append]

theorem emitAsk_append (b : OrderBookImpl) (l l2 : List Nat) :
    emitAsk b (l ++ l2) = emitAsk b l ++ emitAsk b l2 := by
  simp [emitAsk, List.filter_append]

theorem emitBid_mem {b : OrderBookImpl} {idxs : List Nat} {e : Int × Nat}
    (h : e ∈ emitBid b idxs) :
    ∃ i, i ∈ idxs ∧ b.bid_quantities i ≠ 0
      ∧ e = (b.bid_prices i, b.bid_quantities i) := by
  obtain ⟨i, hi, rfl⟩ := List.mem_map.1 h
  obtain ⟨hmem, hq⟩ := List.mem_filter.1 hi
  exact ⟨i, hmem, by have := of_decide_eq_true hq; omega, rfl⟩

theorem emitAsk_mem {b : OrderBookImpl} {idxs : List Nat} {e : Int × Nat}
    (h : e ∈ emitAsk b idxs) :
    ∃ i, i ∈ idxs ∧ b.ask_quantities i ≠ 0
      ∧ e = (b.ask_prices i, b.ask_quantities i) := by
  obtain ⟨i, hi, rfl⟩ := List.mem_map.1 h
  obtain ⟨hmem, hq⟩ := List.mem_filter.1 hi
  exact ⟨i, hmem, by have := of_decide_eq_true hq; omega, rfl⟩


/-- On a good bid side, `get_top_levels` is correct: at most `n` stored
occupied pairs, prices strictly decreasing, starting at the best bid, and
empty exactly when the side is empty. -/
theorem top_levels_bid_good (b : OrderBookImpl) (hok : BidOk b) (P : Int → Prop)
    (hg : GoodBid P b)
    (hPlo : ∀ x, P x → i64min < x)
    (hPo : ∀ x y, P x → P y → x < y → maskIdx x < maskIdx y)
    (n : Nat) (hn : 1 ≤ n) :
    (b.get_top_levels Side.Bid n).length ≤ n ∧
    (∀ e ∈ b.get_top_levels Side.Bid n, ∃ i, i < CAP ∧
       b.bid_quantities i ≠ 0 ∧ e = (b.bid_prices i, b.bid_quantities i)) ∧
    (b.get_top_levels Side.Bid n).Pairwise (fun e f => f.1 < e.1) ∧
    (b.get_top_levels Side.Bid n = [] ↔ b.get_best_bid = none) ∧
    (∀ x, b.get_best_bid = some x →
       ∃ t, (b.get_top_levels Side.Bid n).head? = some (x, t)) := by
  have hmono := prices_mono_bid b hok P hg.1 hPo
  rcases hg.2 with ⟨hempty, hsent⟩ | ⟨imax, hiC, hiq, hbe, hmax⟩
  · have htl : b.get_top_levels Side.Bid n = [] := by
      show (if b.best_bid = i64min then [] else
        OrderBookImpl.top_walk_bid b n (maskIdx b.best_bid) CAP (maskIdx b.best_bid) []) = []
      rw [if_pos hsent]
    have hgb : b.get_best_bid = none := by
      unfold OrderBookImpl.get_best_bid
      rw [if_pos hsent]
    rw [htl, hgb]
    refine ⟨by simp, by simp, List.Pairwise.nil, by simp, ?_⟩
    intro x hx
    exact absurd hx (by simp)
  · have hne : ¬ b.best_bid = i64min := by
      have h1 := hPlo _ (hg.1 imax hiC hiq)
      rw [hbe]
      intro hEq
      rw [hEq] at h1
      exact lt_irrefl _ h1
    have hstart : maskIdx b.best_bid = imax := by
      rw [hbe]
      exact hok.masked imax hiC hiq
    have hchar := get_top_levels_bid_eq b n hne
    rw [hstart] at hchar
    have hwrap : emitBid b (descList (CAP - 1) (CAP - 1 - imax)) = [] := by
      have hf : (descList (CAP - 1) (CAP - 1 - imax)).filter
          (fun i => decide (0 < b.bid_quantities i)) = [] := by
        rw [List.filter_eq_nil_iff]
        intro a ha hdec
        have haub := descList_mem ha
        have halb := descList_mem_lb ha (by omega)
        have hq : b.bid_quantities a ≠ 0 := by
          have := of_decide_eq_true hdec
          omega
        have h1 := hmono imax a hiC (by omega) hiq hq (by omega)
        have h2 := hmax a (by omega) hq
        omega
      unfold emitBid
      rw [hf, List.map_nil]
    rw [emitBid_append, hwrap, List.append_nil, Nat.max_eq_left hn] at hchar
    have hpw : (emitBid b (descList imax (imax + 1))).Pairwise
        (fun e f => f.1 < e.1) := by
      unfold emitBid
      rw [List.pairwise_map]
      refine List.Pairwise.imp_of_mem ?_
        ((descList_pairwise (imax + 1) imax le_rfl).filter _)
      intro a c ha hc hgt
      obtain ⟨hma, hqa⟩ := List.mem_filter.1 ha
      obtain ⟨hmc, hqc⟩ := List.mem_filter.1 hc
      have h1 := descList_mem hma
      have h2 := descList_mem hmc
      exact hmono c a (by omega) (by omega)
        (by have := of_decide_eq_true hqc; omega)
        (by have := of_decide_eq_true hqa; omega) hgt
    have hchar0 := hchar
    have hecons : emitBid b (descList imax (imax + 1))
        = (b.bid_prices imax, b.bid_quantities imax)
            :: emitBid b (descList (imax - 1) imax) := by
      rw [descList_succ]
      simp [emitBid, List.filter_cons,
        decide_eq_true (show 0 < b.bid_quantities imax from by omega)]
    obtain ⟨n', rfl⟩ : ∃ m, n = m + 1 := ⟨n - 1, by omega⟩
    rw [hecons, List.take_succ_cons] at hchar
    refine ⟨?_, ?_, ?_, ?_, ?_⟩
    · rw [hchar]
      have := List.length_take_le n' (emitBid b (descList (imax - 1) imax))
      simp only [List.length_cons]
      omega
    · intro e he
      rw [hchar] at he
      rcases List.mem_cons.1 he with rfl | he2
      · exact ⟨imax, hiC, hiq, rfl⟩
      · have he3 := List.take_subset n' _ he2
        obtain ⟨i, hmem, hq, rfl⟩ := emitBid_mem he3
        have := descList_mem hmem
        exact ⟨i, by omega, hq, rfl⟩
    · rw [hchar0]
      exact hpw.sublist (List.take_sublist _ _)
    · have hgb : b.get_best_bid = some b.best_bid := by
        unfold OrderBookImpl.get_best_bid
        rw [if_neg hne]
      rw [hchar, hgb]
      constructor
      · intro hcontra
        exact absurd hcontra (by simp)
      · intro hcontra
        exact absurd hcontra (by simp)
    · intro x hx
      have hgb : b.get_best_bid = some b.best_bid := by
        unfold OrderBookImpl.get_best_bid
        rw [if_neg hne]
      rw [hgb] at hx
      have hxe : x = b.bid_prices imax := by
        have := Option.some.inj hx
        rw [← this, hbe]
      refine ⟨b.bid_quantities imax, ?_⟩
      rw [hchar, hxe]
      rfl


/-- On a good ask side, `get_top_levels` is correct: at most `n` stored
occupied pairs, prices strictly increasing, starting at the best ask, and
empty exactly when the side is empty. -/
theorem top_levels_ask_good (b : OrderBookImpl) (hok : AskOk b) (P : Int → Prop)
    (hg : GoodAsk P b)
    (hPhi : ∀ x, P x → x < i64max)
    (hPo : ∀ x y, P x → P y → x < y → maskIdx x < maskIdx y)
    (n : Nat) (hn : 1 ≤ n) :
    (b.get_top_levels Side.Ask n).length ≤ n ∧
    (∀ e ∈ b.get_top_levels Side.Ask n, ∃ i, i < CAP ∧
       b.ask_quantities i ≠ 0 ∧ e = (b.ask_prices i, b.ask_quantities i)) ∧
    (b.get_top_levels Side.Ask n).Pairwise (fun e f => e.1 < f.1) ∧
    (b.get_top_levels Side.Ask n = [] ↔ b.get_best_ask = none) ∧
    (∀ x, b.get_best_ask = some x →
       ∃ t, (b.get_top_levels Side.Ask n).head? = some (x, t)) := by
  have hmono := prices_mono_ask b hok P hg.1 hPo
  rcases hg.2 with ⟨hempty, hsent⟩ | ⟨imin, hiC, hiq, hbe, hmin⟩
  · have htl : b.get_top_levels Side.Ask n = [] := by
      show (if b.best_ask = i64max then [] else
        OrderBookImpl.top_walk_ask b n (maskIdx b.best_ask) CAP (maskIdx b.best_ask) []) = []
      rw [if_pos hsent]
    have hgb : b.get_best_ask = none := by
      unfold OrderBookImpl.get_best_ask
      rw [if_pos hsent]
    rw [htl, hgb]
    refine ⟨by simp, by simp, List.Pairwise.nil, by simp, ?_⟩
    intro x hx
    exact absurd hx (by simp)
  · have hne : ¬ b.best_ask = i64max := by
      have h1 := hPhi _ (hg.1 imin hiC hiq)
      rw [hbe]
      intro hEq
      rw [hEq] at h1
      exact lt_irrefl _ h1
    have hstart : maskIdx b.best_ask = imin := by
      rw [hbe]
      exact hok.masked imin hiC hiq
    have hchar := get_top_levels_ask_eq b n hne
    rw [hstart] at hchar
    have hwrap : emitAsk b (ascList 0 imin) = [] := by
      have hf : (ascList 0 imin).filter
          (fun i => decide (0 < b.ask_quantities i)) = [] := by
        rw [List.filter_eq_nil_iff]
        intro a ha hdec
        have hab := ascList_mem ha
        have hq : b.ask_quantities a ≠ 0 := by
          have := of_decide_eq_true hdec
          omega
        have h1 := hmono a imin (by omega) hiC hq hiq (by omega)
        have h2 := hmin a (by omega) hq
        omega
      unfold emitAsk
      rw [hf, List.map_nil]
    rw [emitAsk_append, hwrap, List.append_nil, Nat.max_eq_left hn] at hchar
    have hpw : (emitAsk b (ascList imin (CAP - imin))).Pairwise
        (fun e f => e.1 < f.1) := by
      unfold emitAsk
      rw [List.pairwise_map]
      refine List.Pairwise.imp_of_mem ?_
        ((ascList_pairwise (CAP - imin) imin).filter _)
      intro a c ha hc hlt
      obtain ⟨hma, hqa⟩ := List.mem_filter.1 ha
      obtain ⟨hmc, hqc⟩ := List.mem_filter.1 hc
      have h1 := ascList_mem hma
      have h2 := ascList_mem hmc
      exact hmono a c (by omega) (by omega)
        (by have := of_decide_eq_true hqa; omega)
        (by have := of_decide_eq_true hqc; omega) hlt
    have hchar0 := hchar
    have hecons : emitAsk b (ascList imin (CAP - imin))
        = (b.ask_prices imin, b.ask_quantities imin)
            :: emitAsk b (ascList (imin + 1) (CAP - imin - 1)) := by
      rw [show CAP - imin = (CAP - imin - 1) + 1 from by omega, ascList_succ]
      simp [emitAsk, List.filter_cons,
        decide_eq_true (show 0 < b.ask_quantities imin from by omega)]
    obtain ⟨n', rfl⟩ : ∃ m, n = m + 1 := ⟨n - 1, by omega⟩
    rw [hecons, List.take_succ_cons] at hchar
    refine ⟨?_, ?_, ?_, ?_, ?_⟩
    · rw [hchar]
      have := List.length_take_le n' (emitAsk b (ascList (imin + 1) (CAP - imin - 1)))
      simp only [List.length_cons]
      omega
    · intro e he
      rw [hchar] at he
      rcases List.mem_cons.1 he with rfl | he2
      · exact ⟨imin, hiC, hiq, rfl⟩
      · have he3 := List.take_subset n' _ he2
        obtain ⟨i, hmem, hq, rfl⟩ := emitAsk_mem he3
        have := ascList_mem hmem
        exact ⟨i, by omega, hq, rfl⟩
    · rw [hchar0]
      exact hpw.sublist (List.take_sublist _ _)
    · have hgb : b.get_best_ask = some b.best_ask := by
        unfold OrderBookImpl.get_best_ask
        rw [if_neg hne]
      rw [hchar, hgb]
      constructor
      · intro hcontra
        exact absurd hcontra (by simp)
      · intro hcontra
        exact absurd hcontra (by simp)
    · intro x hx
      have hgb : b.get_best_ask = some b.best_ask := by
        unfold OrderBookImpl.get_best_ask
        rw [if_neg hne]
      rw [hgb] at hx
      have hxe : x = b.ask_prices imin := by
        have := Option.some.inj hx
        rw [← this, hbe]
      refine ⟨b.ask_quantities imin, ?_⟩
      rw [hchar, hxe]
      rfl


/-- C3 (counterexample): bids at 131082 (slot 10), 65556 (slot 20) and
196648 (slot 40) — three live prices with pairwise distinct masked indices,
so the no-alias precondition holds.  `get_top_levels Side.Bid 3` emits the
prices in slot order 196648, 65556, 131082, which is not strictly
decreasing (the walk orders by slot index, not by price, and live prices
span more than one 65536-window); and `get_top_levels Side.Bid 0` returns
one pair, violating the length bound `≤ 0`. -/
theorem c3_cex :
    maskIdx 131082 = 10 ∧ maskIdx 65556 = 20 ∧ maskIdx 196648 = 40 ∧
    (OrderBookImpl.new.applyUpdates
        [Update.Set 131082 1 Side.Bid, Update.Set 65556 1 Side.Bid,
         Update.Set 196648 1 Side.Bid]).get_top_levels Side.Bid 3
      = [(196648, 1), (65556, 1), (131082, 1)] ∧
    ¬ ((65556 : Int) > 131082) ∧
    (OrderBookImpl.new.applyUpdates
        [Update.Set 131082 1 Side.Bid, Update.Set 65556 1 Side.Bid,
         Update.Set 196648 1 Side.Bid]).get_top_levels Side.Bid 0
      = [(196648, 1)] ∧
    ¬ (([(196648, 1)] : List (Int × Nat)).length ≤ 0) := by
  exact ⟨by decide, by decide, by decide, by rfl, by decide, by rfl, by decide⟩

/-- C3 (amended): under the `traceOK` discipline and for `n ≥ 1`,
`get_top_levels` returns at most `n` stored occupied `(price, quantity)`
pairs, with strictly decreasing prices on the bid side and strictly
increasing prices on the ask side, starting with the best price of the
side; the result is empty exactly when the side is empty. -/
theorem top_levels_correctness (us : List Update) (h : traceOK us)
    (b : OrderBookImpl) (hb : b = OrderBookImpl.new.applyUpdates us)
    (n : Nat) (hn : 1 ≤ n) :
    ((b.get_top_levels Side.Bid n).length ≤ n ∧
     (∀ e ∈ b.get_top_levels Side.Bid n, ∃ i, i < CAP ∧
        b.bid_quantities i ≠ 0 ∧ e = (b.bid_prices i, b.bid_quantities i)) ∧
     (b.get_top_levels Side.Bid n).Pairwise (fun e f => f.1 < e.1) ∧
     (b.get_top_levels Side.Bid n = [] ↔ b.get_best_bid = none) ∧
     (∀ x, b.get_best_bid = some x →
        ∃ t, (b.get_top_levels Side.Bid n).head? = some (x, t))) ∧
    ((b.get_top_levels Side.Ask n).length ≤ n ∧
     (∀ e ∈ b.get_top_levels Side.Ask n, ∃ i, i < CAP ∧
        b.ask_quantities i ≠ 0 ∧ e = (b.ask_prices i, b.ask_quantities i)) ∧
     (b.get_top_levels Side.Ask n).Pairwise (fun e f => e.1 < f.1) ∧
     (b.get_top_levels Side.Ask n = [] ↔ b.get_best_ask = none) ∧
     (∀ x, b.get_best_ask = some x →
        ∃ t, (b.get_top_levels Side.Ask n).head? = some (x, t))) := by
  subst hb
  obtain ⟨hgB, hgA⟩ := goodRun us h
  have hok := bookOk_run us
  have hsentB : ∀ x, sideP us Side.Bid x → i64min < x := by
    rintro x ⟨v, hv, _, hx⟩
    rw [← hx]
    exact (h.1 v hv).1
  have hsentA : ∀ x, sideP us Side.Ask x → x < i64max := by
    rintro x ⟨v, hv, _, hx⟩
    rw [← hx]
    exact (h.1 v hv).2
  have hPoB : ∀ x y, sideP us Side.Bid x → sideP us Side.Bid y → x < y →
      maskIdx x < maskIdx y := by
    rintro x y ⟨v, hv, hsv, hx⟩ ⟨w, hw, hsw, hy⟩ hlt
    rw [← hx, ← hy]
    exact h.2 v hv w hw (by rw [hsv, hsw]) (by rw [hx, hy]; exact hlt)
  have hPoA : ∀ x y, sideP us Side.Ask x → sideP us Side.Ask y → x < y →
      maskIdx x < maskIdx y := by
    rintro x y ⟨v, hv, hsv, hx⟩ ⟨w, hw, hsw, hy⟩ hlt
    rw [← hx, ← hy]
    exact h.2 v hv w hw (by rw [hsv, hsw]) (by rw [hx, hy]; exact hlt)
  exact ⟨top_levels_bid_good _ hok.1 _ hgB hsentB hPoB n hn,
         top_levels_ask_good _ hok.2 _ hgA hsentA hPoA n hn⟩

theorem top_levels_correctness_witness :
    ((OrderBookImpl.new.applyUpdates
        [Update.Set 10000 100 Side.Bid]).get_top_levels Side.Bid 1).length ≤ 1 ∧
    ((OrderBookImpl.new.applyUpdates
        [Update.Set 10000 100 Side.Bid]).get_top_levels Side.Ask 1 = [] ↔
      (OrderBookImpl.new.applyUpdates
        [Update.Set 10000 100 Side.Bid]).get_best_ask = none) := by
  have h := top_levels_correctness [Update.Set 10000 100 Side.Bid]
    (by unfold traceOK; decide) _ rfl 1 (by decide)
  exact ⟨h.1.1, h.2.2.2.2.1⟩


/-- C5 (code bug): with the ask side occupied only at slot 63,
`find_next_lowest_active_idx 63` must return `none` — no ask slot strictly
above index 63 is occupied — but it returns `some 63`.  For
`current_bit = 63` the mask `!((1u64 << (current_bit + 1)).wrapping_sub(1))`
shifts by 64: in a release build the shift amount wraps to 0, the mask
becomes `!0 = u64::MAX`, and the start bit itself survives the mask (a
debug build panics on the shift overflow instead). -/
theorem c5_shift_overflow :
    (OrderBookImpl.new.applyUpdates
        [Update.Set 63 1 Side.Ask]).find_next_lowest_active_idx 63 = some 63 ∧
    (∀ j, j < CAP → 63 < j →
      (OrderBookImpl.new.applyUpdates
        [Update.Set 63 1 Side.Ask]).ask_quantities j = 0) ∧
    ¬ (some (63 : Nat) = none) := by
  refine ⟨by rfl, ?_, by decide⟩
  intro j hj h63
  have hq := (update_ask_qty_prices OrderBookImpl.new (maskIdx 63) 63 1).1
  show (OrderBookImpl.new.update_ask (maskIdx 63) 63 1).ask_quantities j = 0
  rw [hq]
  have hne : j ≠ maskIdx 63 := by
    have h64 : maskIdx 63 = 63 := by decide
    omega
  simp only [if_neg hne]
  rfl

end OrderBookTd
